import Mathlib

/-!
andcli: the interactive session of `cmd/andcli/tea.go`

A shallow embedding of the bubbletea model of andcli (entry list, search query,
cursor, selection, list and detail views) and of the package-level variables its
handlers read and write, followed by the properties proved about it.

Go strings are byte sequences.  Go `int` values are integers: the cursor, the
selection and the countdown are bounded by a slice length or only count down to
zero, so they cannot overflow.  The one subtraction of arbitrary `int64` values,
`exp - time.Now().Unix()` in `detail`, wraps around as in Go.
-/

set_option compiler.reuse false

namespace Andcli

/-! ## Go strings -/

/-- A Go string: an immutable sequence of bytes. -/
abbrev GoString := List UInt8

/-- The bytes (UTF-8) of a string literal of the source. -/
def lit (s : String) : GoString := s.toList.flatMap String.utf8EncodeChar

/-- Go `strings.HasPrefix(s, sub)`. -/
def HasPrefix : GoString → GoString → Bool
  | _, [] => true
  | [], _ :: _ => false
  | c :: s, d :: sub => c == d && HasPrefix s sub

/-- Go `strings.Contains(s, sub)`: `sub` occurs in `s` as a contiguous run of bytes. -/
def Contains : GoString → GoString → Bool
  | [], sub => HasPrefix [] sub
  | c :: s, sub => HasPrefix (c :: s) sub || Contains s sub

/-- The scan of Go `strings.Split(s, sep)` for a non-empty separator: `acc` holds the
bytes of the current segment in reverse, `skip` counts the bytes of a separator that
has just been matched and is being stepped over.  Matches are taken leftmost and do
not overlap, as `strings.Index` followed by `s = s[m+len(sep):]` does. -/
def splitAux (sep : GoString) : GoString → GoString → Nat → List GoString
  | [], acc, _ => [acc.reverse]
  | _ :: s, acc, skip + 1 => splitAux sep s acc skip
  | c :: s, acc, 0 =>
    if HasPrefix (c :: s) sep then acc.reverse :: splitAux sep s [] (sep.length - 1)
    else splitAux sep s (c :: acc) 0

/-- Go `strings.Split(s, sep)`, for the non-empty separators the source uses. -/
def Split (s sep : GoString) : List GoString := splitAux sep s [] 0

/-! ### `strings.TrimSpace` and the UTF-8 decoding it relies on -/

/-- Go `utf8.RuneError`. -/
def RuneError : Nat := 0xFFFD

/-- Go `utf8.DecodeRuneInString`: the first rune of `p` and its width in bytes;
`(RuneError, 0)` for the empty string and `(RuneError, 1)` for an invalid encoding. -/
def DecodeRune (p : GoString) : Nat × Nat :=
  match p with
  | [] => (RuneError, 0)
  | c0 :: rest =>
    let b0 := c0.toNat
    if b0 < 0x80 then (b0, 1)
    else if b0 < 0xC2 ∨ 0xF4 < b0 then (RuneError, 1)
    else
      let sz := if b0 < 0xE0 then 2 else if b0 < 0xF0 then 3 else 4
      let lo := if b0 = 0xE0 then 0xA0 else if b0 = 0xF0 then 0x90 else 0x80
      let hi := if b0 = 0xED then 0x9F else if b0 = 0xF4 then 0x8F else 0xBF
      if p.length < sz then (RuneError, 1)
      else
        match rest with
        | [] => (RuneError, 1)
        | c1 :: rest1 =>
          let b1 := c1.toNat
          if b1 < lo ∨ hi < b1 then (RuneError, 1)
          else if sz ≤ 2 then ((b0 % 0x20) * 0x40 + b1 % 0x40, 2)
          else
            match rest1 with
            | [] => (RuneError, 1)
            | c2 :: rest2 =>
              let b2 := c2.toNat
              if b2 < 0x80 ∨ 0xBF < b2 then (RuneError, 1)
              else if sz ≤ 3 then ((b0 % 0x10) * 0x1000 + (b1 % 0x40) * 0x40 + b2 % 0x40, 3)
              else
                match rest2 with
                | [] => (RuneError, 1)
                | c3 :: _ =>
                  let b3 := c3.toNat
                  if b3 < 0x80 ∨ 0xBF < b3 then (RuneError, 1)
                  else ((b0 % 0x08) * 0x40000 + (b1 % 0x40) * 0x1000 + (b2 % 0x40) * 0x40
                          + b3 % 0x40, 4)

/-- Go `utf8.RuneStart`: the byte is not a continuation byte. -/
def RuneStart (b : UInt8) : Bool := decide (b.toNat / 0x40 ≠ 2)

/-- The backwards scan of `utf8.DecodeLastRuneInString`: from `start` down to `lim`,
stop at the first byte that can start a rune (at most three steps, counted by the
first argument). -/
def lastRuneStart (p : GoString) (lim : Int) : Nat → Int → Int
  | 0, start => start
  | n + 1, start =>
    if lim ≤ start then
      if RuneStart (p.getD start.toNat 0) then start else lastRuneStart p lim n (start - 1)
    else start

/-- Go `utf8.DecodeLastRuneInString`: the last rune of `p` and its width. -/
def DecodeLastRune (p : GoString) : Nat × Nat :=
  let len : Int := p.length
  if len = 0 then (RuneError, 0)
  else
    let r := (p.getD (len - 1).toNat 0).toNat
    if r < 0x80 then (r, 1)
    else
      let lim : Int := if len - 4 < 0 then 0 else len - 4
      let start := lastRuneStart p lim 4 (len - 2)
      let start := if start < 0 then 0 else start
      let d := DecodeRune (p.drop start.toNat)
      if start + d.2 ≠ len then (RuneError, 1) else d

/-- Go `unicode.IsSpace`. -/
def IsSpace (r : Nat) : Bool :=
  decide (r = 0x09 ∨ r = 0x0A ∨ r = 0x0B ∨ r = 0x0C ∨ r = 0x0D ∨ r = 0x20 ∨ r = 0x85 ∨ r = 0xA0
    ∨ r = 0x1680 ∨ (0x2000 ≤ r ∧ r ≤ 0x200A) ∨ r = 0x2028 ∨ r = 0x2029 ∨ r = 0x202F
    ∨ r = 0x205F ∨ r = 0x3000)

/-- Go `strings.TrimLeftFunc(s, unicode.IsSpace)`; the first argument bounds the number
of runes scanned (the length of `s` is enough). -/
def trimLeftSpace : Nat → GoString → GoString
  | 0, _ => []
  | n + 1, s =>
    if s = [] then []
    else if IsSpace (DecodeRune s).1 then trimLeftSpace n (s.drop (DecodeRune s).2)
    else s

/-- The loop of Go `lastIndexFunc(s, unicode.IsSpace, false)`: the byte index of the last
rune of `s[0:i]` that is not a space, or `-1`. -/
def lastIndexNotSpace (s : GoString) : Nat → Nat → Int
  | 0, _ => -1
  | n + 1, i =>
    if i = 0 then -1
    else
      let d := DecodeLastRune (s.take i)
      if IsSpace d.1 then lastIndexNotSpace s n (i - d.2) else ((i - d.2 : Nat) : Int)

/-- Go `strings.TrimRightFunc(s, unicode.IsSpace)`. -/
def trimRightSpace (s : GoString) : GoString :=
  let i := lastIndexNotSpace s s.length s.length
  if 0 ≤ i ∧ 0x80 ≤ (s.getD i.toNat 0).toNat then s.take (i.toNat + (DecodeRune (s.drop i.toNat)).2)
  else s.take (i + 1).toNat

/-- The six ASCII white-space bytes of Go `asciiSpace`. -/
def asciiSpace (c : UInt8) : Bool :=
  c == 9 || c == 10 || c == 11 || c == 12 || c == 13 || c == 32

/-- The second loop of Go `strings.TrimSpace`, on the reversed remainder: strip ASCII
space from the end, falling back to `TrimRightFunc` at the first non-ASCII byte. -/
def trimSpaceBack : GoString → GoString
  | [] => []
  | c :: r =>
    if 0x80 ≤ c.toNat then trimRightSpace (c :: r).reverse
    else if asciiSpace c then trimSpaceBack r
    else (c :: r).reverse

/-- Go `strings.TrimSpace`: strip leading and trailing white space (Unicode
`White_Space`), with the fast path for ASCII of the standard library. -/
def TrimSpace : GoString → GoString
  | [] => []
  | c :: s =>
    if 0x80 ≤ c.toNat then trimRightSpace (trimLeftSpace (c :: s).length (c :: s))
    else if asciiSpace c then TrimSpace s
    else trimSpaceBack (c :: s).reverse

/-! ## Entries and the session state -/

/-- Modelled from the spec: the `entry` type is declared outside `tea.go`; an entry has a
label, an optional issuer, credential material that the session never inspects, and the
derived display string `Choice`. -/
structure entry where
  Label : GoString
  Issuer : GoString
  Secret : GoString
  Choice : GoString
  deriving DecidableEq, Repr

/-- Go `type entries []entry`. -/
abbrev entries := List entry

/-- Go `utf8.AppendRune`: the UTF-8 encoding of a rune, that of `RuneError` for a rune
that is not a Unicode scalar value. -/
def EncodeRune (r : Nat) : GoString :=
  if r < 0x80 then [UInt8.ofNat r]
  else if r < 0x800 then [UInt8.ofNat (0xC0 + r / 0x40), UInt8.ofNat (0x80 + r % 0x40)]
  else if 0x10FFFF < r ∨ (0xD800 ≤ r ∧ r ≤ 0xDFFF) then [0xEF, 0xBF, 0xBD]
  else if r < 0x10000 then
    [UInt8.ofNat (0xE0 + r / 0x1000), UInt8.ofNat (0x80 + r / 0x40 % 0x40),
      UInt8.ofNat (0x80 + r % 0x40)]
  else
    [UInt8.ofNat (0xF0 + r / 0x40000), UInt8.ofNat (0x80 + r / 0x1000 % 0x40),
      UInt8.ofNat (0x80 + r / 0x40 % 0x40), UInt8.ofNat (0x80 + r % 0x40)]

/-- The runes that `for _, c := range s` yields: an invalid byte yields `RuneError` and is
one byte wide (the first argument bounds the scan; the length of `s` is enough). -/
def decodeRunes : Nat → GoString → List Nat
  | 0, _ => []
  | n + 1, s => if s = [] then [] else (DecodeRune s).1 :: decodeRunes n (s.drop (DecodeRune s).2)

/-- Go `unicode.ToLower` on the letters of ASCII and of Latin-1; the table of the standard
library for the other scripts is not reproduced, and every other rune is left as it is. -/
def lowerRune (r : Nat) : Nat :=
  if 0x41 ≤ r ∧ r ≤ 0x5A then r + 0x20
  else if 0xC0 ≤ r ∧ r ≤ 0xDE ∧ r ≠ 0xD7 then r + 0x20
  else r

/-- Go `strings.ToLower`, that is `strings.Map(unicode.ToLower, s)`: the runes of `s` are
lower-cased one by one and encoded again, so that every invalid byte of `s` comes out as
the three bytes of U+FFFD. -/
def ToLower (s : GoString) : GoString :=
  (decodeRunes s.length s).flatMap (fun r => EncodeRune (lowerRune r))

/-- Modelled from the spec: `entries.filter` is defined outside `tea.go`.  It keeps, in
their original order, the entries whose `Choice` matches the query by a case-insensitive
substring match, written here the way Go programs write it,
`strings.Contains(strings.ToLower(e.Choice), strings.ToLower(query))`. -/
def entries.filter (items : entries) (query : GoString) : entries :=
  List.filter (fun e => Contains (ToLower e.Choice) (ToLower query)) items

/-- Modelled from the spec: the two values of the `view` field, the constants `VIEW_LIST`
and `VIEW_DETAIL`, are declared outside `tea.go`; they are two distinct view modes. -/
inductive ViewMode where
  | VIEW_LIST
  | VIEW_DETAIL
  deriving DecidableEq, Repr

export ViewMode (VIEW_LIST VIEW_DETAIL)

/-- The `model` struct (the terminal handle `output` is left out: it is only used to
clear the screen). -/
structure model where
  filename : GoString
  items : entries
  filtered : entries
  cursor : Int
  selected : Int
  view : ViewMode
  visible : Bool
  query : GoString
  deriving DecidableEq, Repr

/-- The package-level variables that the handlers of `tea.go` read and write; they are
declared outside `tea.go`.  `current` is the code last rendered by the detail view,
`copied` and `copiedVisibleMSecs` the feedback flag of a clipboard copy and its
countdown, `copyCmd` whether the copy feature is enabled. -/
structure globals where
  current : GoString
  copied : Bool
  copiedVisibleMSecs : Int
  copyCmd : Bool
  deriving DecidableEq, Repr

/-- The whole state of a running session: the model and the package-level variables. -/
structure session where
  m : model
  g : globals
  deriving DecidableEq, Repr

/-- The body of the loop of `newModel`: the display string of one entry. -/
def choice (e : entry) : GoString :=
  let issuer := TrimSpace e.Issuer
  let issuer := if issuer = [] then (Split e.Label (lit " - ")).headD [] else issuer
  let label := e.Label
  let parts := Split e.Label (lit " - ")
  let label := if 1 < parts.length then parts.getD 1 [] else label
  if label ≠ [] then issuer ++ lit " (" ++ label ++ lit ")" else issuer

/-- Go `newModel`.  `g` holds the package-level variables as they are when `newModel` is
called and `clipInitOk` tells whether `clipboard.Init()` succeeded. -/
def newModel (g : globals) (clipInitOk : Bool) (filename : GoString) (es : entries) : session :=
  { m :=
      { filename := filename
        items := es.map (fun e => { e with Choice := choice e })
        filtered := []
        cursor := 0
        selected := -1
        view := VIEW_LIST
        visible := false
        query := [] }
    g := if clipInitOk then g else { g with copyCmd := false } }

/-! ## Messages and commands -/

/-- The key types of bubbletea that the handlers distinguish; `KeyOther` stands for
every other key type. -/
inductive KeyType where
  | KeyEsc
  | KeyUp
  | KeyDown
  | KeyEnter
  | KeyPgDown
  | KeyPgUp
  | KeyBackspace
  | KeyRunes
  | KeyOther
  deriving DecidableEq, Repr

/-- A `tea.KeyMsg`, as far as the handlers look at it: its `Type` and the value its
`String()` method returns. -/
structure KeyMsg where
  type : KeyType
  str : GoString
  deriving DecidableEq, Repr

/-- A `tea.Msg`: a key, a `tickMsg`, or any other message of the runtime. -/
inductive Msg where
  | key (k : KeyMsg)
  | tick
  | other
  deriving DecidableEq, Repr

/-- The `tea.Cmd` a handler returns: `nil`, `tick()` or `tea.Quit`. -/
inductive Cmd where
  | none
  | tick
  | Quit
  deriving DecidableEq, Repr

/-! ## The handlers -/

/-- The `switch msg.Type` of Go `(*model).updateList`, for a key message: `m` is the model
after `m.filtered` has been recomputed and `last` the last valid index. -/
def updateListKey (m : model) (last : Int) (k : KeyMsg) : model × Cmd :=
  match k.type with
  | KeyType.KeyEsc =>
    if m.query = [] then (m, Cmd.Quit)
    else ({ m with query := [], filtered := m.items }, Cmd.none)
  | KeyType.KeyUp =>
    let c := m.cursor - 1
    ({ m with cursor := if c < 0 then last else c }, Cmd.none)
  | KeyType.KeyDown =>
    let c := m.cursor + 1
    ({ m with cursor := if c > last then 0 else c }, Cmd.none)
  | KeyType.KeyEnter =>
    if m.filtered.length > 0 then ({ m with selected := m.cursor, view := VIEW_DETAIL }, Cmd.none)
    else (m, Cmd.none)
  | KeyType.KeyPgDown => ({ m with cursor := last }, Cmd.none)
  | KeyType.KeyPgUp => ({ m with cursor := 0 }, Cmd.none)
  | KeyType.KeyBackspace =>
    if m.query.length > 0 then ({ m with query := m.query.take (m.query.length - 1) }, Cmd.none)
    else (m, Cmd.none)
  | KeyType.KeyRunes => ({ m with cursor := 0, query := m.query ++ k.str }, Cmd.none)
  | KeyType.KeyOther => (m, Cmd.none)

/-- Go `(*model).updateList`. -/
def updateList (s : session) (msg : Msg) : session × Cmd :=
  let m := { s.m with filtered := s.m.items.filter s.m.query }
  let last : Int := (m.filtered.length : Int) - 1
  let last := if last < 0 then 0 else last
  match msg with
  | Msg.key k => ({ s with m := (updateListKey m last k).1 }, (updateListKey m last k).2)
  | Msg.tick => ({ s with m := m }, Cmd.tick)
  | Msg.other => ({ s with m := m }, Cmd.none)

/-- Go `(*model).updateDetail`.  `clip` is what `clipboard.Read` returns when the handler
reads the clipboard back after writing `current` to it. -/
def updateDetail (clip : GoString) (s : session) (msg : Msg) : session × Cmd :=
  match msg with
  | Msg.key k =>
    match k.type with
    | KeyType.KeyEsc =>
      ({ m := { s.m with query := [], selected := -1, view := VIEW_LIST, visible := false }
         g := { s.g with current := [] } }, Cmd.none)
    | KeyType.KeyEnter => ({ s with m := { s.m with visible := !s.m.visible } }, Cmd.none)
    | KeyType.KeyRunes =>
      if k.str = lit "q" then (s, Cmd.Quit)
      else if k.str = lit "c" then
        if s.g.current ≠ [] ∧ s.g.copyCmd = true then
          if clip ≠ s.g.current then (s, Cmd.Quit)
          else ({ s with g := { s.g with copied := true } }, Cmd.none)
        else (s, Cmd.none)
      else (s, Cmd.none)
    | _ => (s, Cmd.none)
  | Msg.tick =>
    if s.g.copied = true then
      if s.g.copiedVisibleMSecs > 0 then
        ({ s with g := { s.g with copiedVisibleMSecs := s.g.copiedVisibleMSecs - 1 } }, Cmd.tick)
      else ({ s with g := { s.g with copied := false, copiedVisibleMSecs := 2000 } }, Cmd.tick)
    else (s, Cmd.tick)
  | Msg.other => (s, Cmd.none)

/-- Go `(*model).Update`. -/
def Update (clip : GoString) (s : session) (msg : Msg) : session × Cmd :=
  match msg with
  | Msg.key k =>
    if k.str = lit "ctrl+c" then (s, Cmd.Quit)
    else if s.m.selected ≠ -1 then updateDetail clip s msg else updateList s msg
  | _ => if s.m.selected ≠ -1 then updateDetail clip s msg else updateList s msg

/-! ## Rendering -/

/-- Modelled from the spec: the text styles `success`, `white`, `warning`, `danger` and
`muted` are package-level values declared outside `tea.go` (the semantic roles success,
emphasized, warning, danger and muted of the terminal output). -/
inductive Style where
  | success
  | white
  | warning
  | danger
  | muted
  deriving DecidableEq, Repr

/-- A piece of rendered text: `style.Sprint(text)` when a style is given, the plain bytes
otherwise. -/
structure Chunk where
  style : Option Style
  text : GoString
  deriving DecidableEq, Repr

/-- Rendered text: the concatenation of its pieces. -/
abbrev Text := List Chunk

/-- Go `fmt.Sprintf("%d", n)`. -/
def fmtInt (n : Int) : GoString := lit (toString n)

/-- The number of iterations of `for range s`: the number of runes of `s`, an invalid
byte counting as one (the first argument bounds the scan; the length of `s` is enough). -/
def runeCount : Nat → GoString → Nat
  | 0, _ => 0
  | n + 1, s => if s = [] then 0 else 1 + runeCount n (s.drop (DecodeRune s).2)

/-- Go `model.footer`. -/
def footer (s : session) : Text :=
  let footer := lit "[esc] quit"
  let footer := if s.m.query.length > 0 then lit "[esc] clear search" else footer
  let footer := if s.m.filtered.length > 0 then footer ++ lit " | [enter] view" else footer
  let footer :=
    if s.m.view = VIEW_DETAIL then
      let footer := lit "[esc] back | [q] quit | [enter] toggle visibility"
      if s.g.copyCmd = true then footer ++ lit " | [c] copy" else footer
    else footer
  [⟨some Style.muted, lit "\n" ++ footer ++ lit "\n"⟩]

/-- Go `model.header`. -/
def header (s : session) (title : GoString) : Text :=
  if title = [] then [⟨none, lit "\n"⟩]
  else
    let line := List.replicate (runeCount title.length title) (61 : UInt8)
    let length := s.m.filtered.length
    let word := if length = 1 then lit "entry" else lit "entries"
    let counter := fmtInt length ++ lit " " ++ word ++ lit "."
    let header : Text := [⟨none, title ++ lit "\n" ++ line ++ lit "\n" ++ counter ++ lit "\n"⟩]
    if s.m.view ≠ VIEW_DETAIL then
      header ++ [⟨none, lit "\nType to search: "⟩, ⟨some Style.white, s.m.query⟩, ⟨none, lit "\n\n"⟩]
    else header

/-- The loop of Go `model.list`, from index `i` on. -/
def listLines (cursor : Int) : Nat → entries → Text
  | _, [] => []
  | i, e :: rest =>
    (if cursor = (i : Int) then
        [⟨some Style.success, lit "> "⟩, ⟨none, lit " "⟩, ⟨some Style.white, e.Choice⟩,
          ⟨none, lit "\n"⟩]
      else [⟨none, lit " " ++ lit " " ++ e.Choice ++ lit "\n"⟩])
    ++ listLines cursor (i + 1) rest

/-- Go `model.list`. -/
def list (s : session) : Text := listLines s.m.cursor 0 s.m.filtered ++ footer s

/-- The value of an `int64` expression whose mathematical result is `x`: Go integer
arithmetic wraps around. -/
def wrapInt64 (x : Int) : Int := (x + 2 ^ 63) % 2 ^ 64 - 2 ^ 63

/-- The values that `model.detail` composes into its result with
`fmt.Sprintf("%s: %s\nValid: %s\n", name, fmtToken, fmtUntil)` followed by the footer:
`fmtToken` and `fmtUntil` are the styled code and the styled remaining seconds,
`untilSecs` is the local `until`, the `int64` value of `exp - time.Now().Unix()`, and
`mark` is the check mark appended to the code while `copied` is set. -/
structure DetailView where
  name : GoString
  fmtToken : Chunk
  mark : Text
  untilSecs : Int
  fmtUntil : Chunk
  footer : Text
  deriving DecidableEq, Repr

/-- The string `model.detail` returns. -/
def DetailView.text (d : DetailView) : Text :=
  [⟨none, d.name ++ lit ": "⟩, d.fmtToken] ++ d.mark ++ [⟨none, lit "\nValid: "⟩, d.fmtUntil,
    ⟨none, lit "\n"⟩] ++ d.footer

/-- Go `(*model).detail`.  `totp e` is what `e.generateTOTP()` returns at the time of the
call (the code and its expiry, in seconds since the epoch) and `now` is
`time.Now().Unix()`, both `int64` values; their difference wraps around as in Go.  The
result is `none` when the Go code panics: `m.selected` is not
an index of `m.filtered`, or the code to show has fewer than three bytes.  Otherwise it
is the rendered view together with the session after the call, in which the
package-level `current` holds the code. -/
def detail (totp : entry → GoString × Int) (now : Int) (s : session) :
    Option (DetailView × session) :=
  if 0 ≤ s.m.selected ∧ s.m.selected < s.m.filtered.length then
    match s.m.filtered.get? s.m.selected.toNat with
    | none => none
    | some e =>
      let name := lit "\n" ++ e.Choice
      let token := (totp e).1
      let exp := (totp e).2
      let untilSecs := wrapInt64 (exp - now)
      let s1 : session := { s with g := { s.g with current := token } }
      let token := if !s.m.visible then lit "******" else token
      if token.length < 3 then none
      else
        let token := token.take 3 ++ lit " " ++ token.drop 3
        let fmtToken : Chunk := ⟨some Style.success, token⟩
        let fmtUntil : Chunk := ⟨some Style.white, fmtInt untilSecs ++ lit "s"⟩
        let fmtToken : Chunk :=
          if untilSecs ≤ 10 ∧ untilSecs > 5 then ⟨some Style.warning, token⟩ else fmtToken
        let fmtUntil : Chunk :=
          if untilSecs ≤ 10 ∧ untilSecs > 5 then ⟨some Style.warning, fmtInt untilSecs ++ lit "s"⟩
          else fmtUntil
        let fmtToken : Chunk := if untilSecs ≤ 5 then ⟨some Style.danger, token⟩ else fmtToken
        let fmtUntil : Chunk :=
          if untilSecs ≤ 5 then ⟨some Style.danger, fmtInt untilSecs ++ lit "s"⟩ else fmtUntil
        let mark : Text := if s.g.copied = true then [⟨some Style.success, lit " ✓ "⟩] else []
        some ({ name := name, fmtToken := fmtToken, mark := mark, untilSecs := untilSecs,
                fmtUntil := fmtUntil, footer := footer s1 }, s1)
  else none

/-- Go `model.View`.  `title` is the header line
`fmt.Sprintf("%s %s: %s", APP_NAME, tag, filepath.Base(m.filename))`, whose constants are
declared outside `tea.go`.  The result is `none` when `detail` panics. -/
def View (title : GoString) (totp : entry → GoString × Int) (now : Int) (s : session) :
    Option (Text × session) :=
  if s.m.view = VIEW_LIST then some (header s title ++ list s, s)
  else
    match detail totp now s with
    | none => none
    | some (d, s1) => some (header s title ++ d.text, s1)

/-! ## Runs of the session -/

/-- One step of the event loop: the runtime hands a message to `Update` (with `clip` the
bytes a read of the clipboard returns during that call), or renders the model with
`View`. -/
inductive Step where
  | update (clip : GoString) (msg : Msg)
  | view (title : GoString) (totp : entry → GoString × Int) (now : Int)

/-- The session after one step.  A `View` that panics ends the program: no new state. -/
def step (s : session) : Step → session
  | Step.update clip msg => (Update clip s msg).1
  | Step.view title totp now =>
    match View title totp now s with
    | some (_, s1) => s1
    | none => s

/-- The session after a finite sequence of steps. -/
def run (s : session) (steps : List Step) : session := steps.foldl step s

/-- The states a session started in `s0` can be in.  The command returned by `Update` is
not looked at: `tea.Quit` only asks the runtime to stop, and messages that are already
queued may still be handled. -/
def Reachable (s0 s : session) : Prop := ∃ steps : List Step, run s0 steps = s

/-! ## Invariant and sample data -/

/-- A message that is not the key ctrl+c. -/
def notCtrlC (msg : Msg) : Prop := ∀ k : KeyMsg, msg = Msg.key k → k.str ≠ lit "ctrl+c"

/-- The last valid index of a list of entries, `0` when it is empty: the `last` of
`updateList`. -/
def lastIndex (es : entries) : Int := max 0 ((es.length : Int) - 1)

/-- What holds of the model in every state of a session, whatever `entries.filter` does:
the cursor is not negative, `selected` is set exactly in the detail view, and the code is
hidden in the list view. -/
structure Inv (s : session) : Prop where
  cursor_nonneg : 0 ≤ s.m.cursor
  selected_iff : s.m.selected ≠ -1 ↔ s.m.view = VIEW_DETAIL
  hidden_in_list : s.m.selected = -1 → s.m.visible = false

/-- The session after the package-level `current` has been set to `cur`, which is all a
rendering of the detail view changes. -/
def withCurrent (cur : GoString) (s : session) : session :=
  { s with g := { s.g with current := cur } }

/-- The issuer shown for an entry, in the words of the specification: the explicit issuer
without its surrounding white space or, when that is empty, the first segment of the
label split on `" - "`. -/
def issuerOf (e : entry) : GoString :=
  if TrimSpace e.Issuer = [] then
    match Split e.Label (lit " - ") with
    | first :: _ => first
    | [] => []
  else TrimSpace e.Issuer

/-- The account shown for an entry: the second segment of the label split on `" - "` when
there is one, the whole label otherwise. -/
def accountOf (e : entry) : GoString :=
  match Split e.Label (lit " - ") with
  | _ :: second :: _ => second
  | _ => e.Label

/-- Modelled from the spec: the package-level variables are declared outside `tea.go`.
When a session starts no code is stored, the copied flag is unset and its countdown holds
the initial value 2000; `copyCmd` tells whether the copy feature was asked for. -/
def startGlobals (copyCmd : Bool) : globals :=
  { current := [], copied := false, copiedVisibleMSecs := 2000, copyCmd := copyCmd }

/-- The session with the copied flag and its countdown set to the given values, all else
as in `s`. -/
def withCopied (flag : Bool) (countdown : Int) (s : session) : session :=
  { s with g := { s.g with copied := flag, copiedVisibleMSecs := countdown } }

/-- The steps that hand one tick after the other to `Update`, one for each element of
`clips` (the clipboard content at the time of the tick, which a tick never reads). -/
def ticks (clips : List GoString) : List Step := clips.map (fun c => Step.update c Msg.tick)

/-- What holds of the copy feedback in every state of a session started with
`startGlobals`: the countdown stays between 0 and 2000 and is at 2000 whenever the flag is
unset. -/
structure CopyInv (s : session) : Prop where
  countdown_nonneg : 0 ≤ s.g.copiedVisibleMSecs
  countdown_le : s.g.copiedVisibleMSecs ≤ 2000
  countdown_idle : s.g.copied = false → s.g.copiedVisibleMSecs = 2000

/-- Package-level variables at the start of a session: no code rendered yet, no copy
feedback, the countdown at its initial value, the copy feature enabled. -/
def sampleGlobals : globals :=
  { current := [], copied := false, copiedVisibleMSecs := 2000, copyCmd := true }

/-- The two entries of the scenario of the specification. -/
def sampleEntries : entries :=
  [{ Label := lit "GitHub - alice", Issuer := [], Secret := [], Choice := [] },
   { Label := lit "AWS", Issuer := [], Secret := [], Choice := [] }]

/-- The session `newModel` builds for the sample entries. -/
def sampleSession : session := newModel sampleGlobals true (lit "otp.json") sampleEntries

/-- A generator of codes for the examples: the code 123456, expiring at second 107. -/
def sampleTotp (_ : entry) : GoString × Int := (lit "123456", 107)

/-- The sample session with the detail view open on its first entry. -/
def sampleDetail : session := (Update [] sampleSession (Msg.key ⟨KeyType.KeyEnter, lit "enter"⟩)).1

/-- A key message of type `KeyRunes` carrying the text `t`. -/
def runes (t : String) : Msg := Msg.key { type := KeyType.KeyRunes, str := lit t }

/-- The step that hands the key `k` to `Update`. -/
def press (k : KeyMsg) : Step := Step.update [] (Msg.key k)

/-- The step that hands the typed text `t` to `Update`. -/
def typed (t : String) : Step := Step.update [] (runes t)

/-- The step that hands a tick to `Update`. -/
def ticked : Step := Step.update [] Msg.tick

/-- The header line used in the examples. -/
def sampleTitle : GoString := lit "andcli: otp.json"

/-- The step that renders the view, in the examples: the code is 123456 and expires in
seven seconds. -/
def rendered : Step := Step.view sampleTitle sampleTotp 100

/-- The step that hands the key `c` to `Update` while the clipboard gives back `clip`. -/
def copyKey (clip : String) : Step := Step.update (lit clip) (runes "c")

/-- The Enter key. -/
def keyEnter : KeyMsg := { type := KeyType.KeyEnter, str := lit "enter" }

/-- The Escape key. -/
def keyEsc : KeyMsg := { type := KeyType.KeyEsc, str := lit "esc" }

/-- The Up key. -/
def keyUp : KeyMsg := { type := KeyType.KeyUp, str := lit "up" }

/-- The Down key. -/
def keyDown : KeyMsg := { type := KeyType.KeyDown, str := lit "down" }

/-- The Page-up key. -/
def keyPgUp : KeyMsg := { type := KeyType.KeyPgUp, str := lit "pgup" }

/-- The Page-down key. -/
def keyPgDown : KeyMsg := { type := KeyType.KeyPgDown, str := lit "pgdown" }

/-- The Backspace key. -/
def keyBackspace : KeyMsg := { type := KeyType.KeyBackspace, str := lit "backspace" }

/-- Two entries with an accented letter in their issuer. -/
def cafeEntries : entries :=
  [{ Label := lit "Café - a", Issuer := [], Secret := [], Choice := [] },
   { Label := lit "Café - b", Issuer := [], Secret := [], Choice := [] }]

/-- The session `newModel` builds for `cafeEntries`. -/
def cafeSession : session := newModel sampleGlobals true (lit "otp.json") cafeEntries

/-- Three entries, the last of which carries the replacement character U+FFFD in its
label, as badly converted text does. -/
def accentEntries : entries :=
  [{ Label := lit "xé - 1", Issuer := [], Secret := [], Choice := [] },
   { Label := lit "xé - 2", Issuer := [], Secret := [], Choice := [] },
   { Label := lit "x\uFFFD - 3", Issuer := [], Secret := [], Choice := [] }]

/-- The session `newModel` builds for `accentEntries`. -/
def accentSession : session := newModel sampleGlobals true (lit "otp.json") accentEntries

/-- The sample session after Enter, a rendering and a successful copy of the code. -/
def sampleCopied : session := run sampleSession [press keyEnter, rendered, copyKey "123456"]

/-! ## Properties -/

/-! ### The string functions on examples -/

theorem Split_examples :
    Split (lit "GitHub - alice") (lit " - ") = [lit "GitHub", lit "alice"] ∧
    Split (lit "AWS") (lit " - ") = [lit "AWS"] ∧
    Split (lit "") (lit " - ") = [lit ""] ∧
    Split (lit "a - b - c - ") (lit " - ") = [lit "a", lit "b", lit "c", lit ""] ∧
    Split (lit "a - - b") (lit " - ") = [lit "a", lit "- b"] := by
  decide

theorem TrimSpace_examples :
    TrimSpace (lit "  ab c \t\n") = lit "ab c" ∧
    TrimSpace (lit " \u00a0x y\u3000 ") = lit "x y" ∧
    TrimSpace (lit "\u0085é\u2003") = lit "é" ∧
    TrimSpace (lit " \u3000") = [] ∧
    TrimSpace [32, 0xC3, 32] = [0xC3] ∧
    TrimSpace [32, 0x41, 0xA0, 32] = [0x41, 0xA0] := by
  decide

theorem ToLower_examples :
    ToLower (lit "GitHub (Alice)") = lit "github (alice)" ∧
    ToLower (lit "Café ÀÉ×Þ") = lit "café àé×þ" ∧
    ToLower [0x78, 0xC3] = lit "x\uFFFD" ∧
    ToLower (lit "x\uFFFD") = lit "x\uFFFD" ∧
    ToLower [] = [] := by
  decide

/-! ### Substring search and the filter -/

theorem hasPrefix_iff (s sub : GoString) : HasPrefix s sub = true ↔ sub <+: s := by
  induction sub generalizing s with
  | nil => simp [HasPrefix]
  | cons d sub ih =>
    cases s with
    | nil => simp [HasPrefix]
    | cons c s =>
      simp only [HasPrefix, Bool.and_eq_true, beq_iff_eq, ih, List.cons_prefix_cons]
      constructor
      · rintro ⟨h1, h2⟩; exact ⟨h1.symm, h2⟩
      · rintro ⟨h1, h2⟩; exact ⟨h1.symm, h2⟩

theorem contains_iff (s sub : GoString) : Contains s sub = true ↔ sub <:+: s := by
  induction s with
  | nil =>
    simp only [Contains, hasPrefix_iff]
    constructor
    · intro h; exact h.isInfix
    · intro h; rw [List.infix_nil] at h; subst h; exact List.prefix_refl _
  | cons c s ih =>
    simp only [Contains, Bool.or_eq_true, hasPrefix_iff, ih, List.infix_cons_iff]

/-- The entries matching a query are among the entries given, in the same order. -/
theorem filter_sublist (items : entries) (q : GoString) : (items.filter q).Sublist items := by
  unfold entries.filter
  exact List.filter_sublist _

theorem filter_length_le (items : entries) (q : GoString) :
    (items.filter q).length ≤ items.length :=
  (filter_sublist items q).length_le

/-- Every entry matches the empty query. -/
theorem filter_empty_query (items : entries) : items.filter [] = items := by
  unfold entries.filter
  rw [List.filter_eq_self]
  intro e _
  rw [contains_iff]
  exact List.nil_infix

/-! ### The invariant of the session -/

theorem inv_newModel (g : globals) (ok : Bool) (fn : GoString) (es : entries) :
    Inv (newModel g ok fn es) := by
  constructor <;> simp [newModel]

theorem Update_ctrlC (clip : GoString) (s : session) (k : KeyMsg) (hc : k.str = lit "ctrl+c") :
    Update clip s (Msg.key k) = (s, Cmd.Quit) := by
  simp only [Update, hc, if_true]

theorem Update_list (clip : GoString) (s : session) (msg : Msg) (hs : s.m.selected = -1)
    (hc : notCtrlC msg) : Update clip s msg = updateList s msg := by
  cases msg with
  | key k => simp only [Update, hc k rfl, if_false, hs, ne_eq, not_true_eq_false]
  | tick => simp only [Update, hs, ne_eq, not_true_eq_false, if_false]
  | other => simp only [Update, hs, ne_eq, not_true_eq_false, if_false]

theorem Update_detail (clip : GoString) (s : session) (msg : Msg) (hs : s.m.selected ≠ -1)
    (hc : notCtrlC msg) : Update clip s msg = updateDetail clip s msg := by
  cases msg with
  | key k => simp only [Update, hc k rfl, if_false, hs, ne_eq, not_false_eq_true, if_true]
  | tick => simp only [Update, hs, ne_eq, not_false_eq_true, if_true]
  | other => simp only [Update, hs, ne_eq, not_false_eq_true, if_true]

theorem inv_updateList (s : session) (msg : Msg) (h : Inv s) (hs : s.m.selected = -1) :
    Inv (updateList s msg).1 := by
  obtain ⟨h1, h4, h5⟩ := h
  have hv : s.m.view = VIEW_LIST := by
    cases hview : s.m.view with
    | VIEW_LIST => rfl
    | VIEW_DETAIL => exact absurd hs (h4.mpr hview)
  have hvis := h5 hs
  cases msg with
  | tick => exact ⟨h1, h4, h5⟩
  | other => exact ⟨h1, h4, h5⟩
  | key k =>
    cases hk : k.type <;>
      simp only [updateList, updateListKey, hk] <;>
      (try split_ifs) <;>
      refine ⟨?_, ?_, ?_⟩ <;>
      simp only [hv, hs] <;>
      first
        | assumption
        | omega
        | (intro hc; first | exact absurd rfl hc | exact hvis)
        | (constructor <;> intro hc <;> first | trivial | omega)

theorem inv_updateDetail (clip : GoString) (s : session) (msg : Msg) (h : Inv s)
    (hs : s.m.selected ≠ -1) : Inv (updateDetail clip s msg).1 := by
  have keep : ∀ g : globals, Inv { s with g := g } := fun g =>
    ⟨h.cursor_nonneg, h.selected_iff, h.hidden_in_list⟩
  cases msg with
  | tick =>
    simp only [updateDetail]
    split_ifs <;> exact keep _
  | other => exact h
  | key k =>
    cases hk : k.type
    case KeyEsc =>
      simp only [updateDetail, hk]
      refine ⟨h.cursor_nonneg, ?_, fun _ => rfl⟩
      constructor
      · intro hc; exact absurd rfl hc
      · intro hc; cases hc
    case KeyEnter =>
      simp only [updateDetail, hk]
      exact ⟨h.cursor_nonneg, h.selected_iff, fun hc => absurd hc hs⟩
    case KeyRunes =>
      simp only [updateDetail, hk]
      split_ifs <;> exact keep _
    all_goals simp only [updateDetail, hk]; exact h

theorem inv_Update (clip : GoString) (s : session) (msg : Msg) (h : Inv s) :
    Inv (Update clip s msg).1 := by
  by_cases hc : notCtrlC msg
  · by_cases hs : s.m.selected = -1
    · rw [Update_list clip s msg hs hc]; exact inv_updateList s msg h hs
    · rw [Update_detail clip s msg hs hc]; exact inv_updateDetail clip s msg h hs
  · unfold notCtrlC at hc
    push_neg at hc
    obtain ⟨k, rfl, hk⟩ := hc
    rw [Update_ctrlC clip s k hk]
    exact h

/-- Rendering changes nothing of the model: `detail` only stores the code in `current`. -/
theorem detail_session (totp : entry → GoString × Int) (now : Int) (s s1 : session)
    (d : DetailView) (h : detail totp now s = some (d, s1)) :
    ∃ e, s.m.filtered.get? s.m.selected.toNat = some e ∧
      s1 = { s with g := { s.g with current := (totp e).1 } } := by
  unfold detail at h
  by_cases hb : 0 ≤ s.m.selected ∧ s.m.selected < s.m.filtered.length
  · rw [if_pos hb] at h
    cases hget : s.m.filtered.get? s.m.selected.toNat with
    | none => rw [hget] at h; exact absurd h (by simp)
    | some e =>
      rw [hget] at h
      refine ⟨e, rfl, ?_⟩
      dsimp only at h
      by_cases hl : (if !s.m.visible then lit "******" else (totp e).1).length < 3
      · rw [if_pos hl] at h; exact absurd h (by simp)
      · rw [if_neg hl] at h
        simp only [Option.some.injEq, Prod.mk.injEq] at h
        exact h.2.symm
  · rw [if_neg hb] at h; exact absurd h (by simp)

theorem detail_model (totp : entry → GoString × Int) (now : Int) (s s1 : session)
    (d : DetailView) (h : detail totp now s = some (d, s1)) : s1.m = s.m := by
  obtain ⟨e, _, rfl⟩ := detail_session totp now s s1 d h
  rfl

theorem View_model (title : GoString) (totp : entry → GoString × Int) (now : Int)
    (s s1 : session) (t : Text) (h : View title totp now s = some (t, s1)) : s1.m = s.m := by
  unfold View at h
  split_ifs at h
  · simp only [Option.some.injEq, Prod.mk.injEq] at h
    rw [← h.2]
  · split at h
    · exact absurd h (by simp)
    · rename_i d s2 hd
      simp only [Option.some.injEq, Prod.mk.injEq] at h
      rw [← h.2]
      exact detail_model totp now s s2 d hd

theorem step_model_of_view (title : GoString) (totp : entry → GoString × Int) (now : Int)
    (s : session) : (step s (Step.view title totp now)).m = s.m := by
  simp only [step]
  split
  · rename_i t s1 hv
    exact View_model title totp now s s1 t hv
  · rfl

theorem inv_of_model_eq (s s1 : session) (hm : s1.m = s.m) (h : Inv s) : Inv s1 := by
  obtain ⟨h1, h4, h5⟩ := h
  constructor <;> rw [hm] <;> assumption

theorem inv_step (s : session) (st : Step) (h : Inv s) : Inv (step s st) := by
  cases st with
  | update clip msg => exact inv_Update clip s msg h
  | view title totp now => exact inv_of_model_eq s _ (step_model_of_view title totp now s) h

theorem inv_run (s : session) (steps : List Step) (h : Inv s) : Inv (run s steps) := by
  induction steps generalizing s with
  | nil => exact h
  | cons st rest ih => exact ih (step s st) (inv_step s st h)

/-- Every state of a session started by `newModel` satisfies the invariant. -/
theorem inv_session (g : globals) (ok : Bool) (fn : GoString) (es : entries)
    (steps : List Step) : Inv (run (newModel g ok fn es) steps) :=
  inv_run _ steps (inv_newModel g ok fn es)

theorem inv_of_reachable (g : globals) (ok : Bool) (fn : GoString) (es : entries)
    (s : session) (h : Reachable (newModel g ok fn es) s) : Inv s := by
  obtain ⟨steps, rfl⟩ := h
  exact inv_session g ok fn es steps

theorem selected_of_list_view (s : session) (h : Inv s) (hv : s.m.view = VIEW_LIST) :
    s.m.selected = -1 := by
  by_contra hne
  have := h.selected_iff.mp hne
  rw [hv] at this
  cases this

theorem notCtrlC_key (k : KeyMsg) (hc : k.str ≠ lit "ctrl+c") : notCtrlC (Msg.key k) := by
  intro k2 hk
  cases hk
  exact hc

theorem wrapInt64_of_fits (x : Int) (h1 : -(2 ^ 63) ≤ x) (h2 : x < 2 ^ 63) : wrapInt64 x = x := by
  unfold wrapInt64
  omega

/-- What `detail` returns when it does not panic, written out. -/
theorem detail_view (totp : entry → GoString × Int) (now : Int) (s s1 : session)
    (d : DetailView) (h : detail totp now s = some (d, s1)) :
    ∃ e token, s.m.filtered.get? s.m.selected.toNat = some e ∧
      d.untilSecs = wrapInt64 ((totp e).2 - now) ∧
      d.fmtToken = (if wrapInt64 ((totp e).2 - now) ≤ 5 then ⟨some Style.danger, token⟩
        else if wrapInt64 ((totp e).2 - now) ≤ 10 ∧ wrapInt64 ((totp e).2 - now) > 5 then
          ⟨some Style.warning, token⟩
        else ⟨some Style.success, token⟩) ∧
      d.fmtUntil = (if wrapInt64 ((totp e).2 - now) ≤ 5 then
          ⟨some Style.danger, fmtInt (wrapInt64 ((totp e).2 - now)) ++ lit "s"⟩
        else if wrapInt64 ((totp e).2 - now) ≤ 10 ∧ wrapInt64 ((totp e).2 - now) > 5 then
          ⟨some Style.warning, fmtInt (wrapInt64 ((totp e).2 - now)) ++ lit "s"⟩
        else ⟨some Style.white, fmtInt (wrapInt64 ((totp e).2 - now)) ++ lit "s"⟩) := by
  unfold detail at h
  by_cases hb : 0 ≤ s.m.selected ∧ s.m.selected < s.m.filtered.length
  · rw [if_pos hb] at h
    cases hget : s.m.filtered.get? s.m.selected.toNat with
    | none => rw [hget] at h; exact absurd h (by simp)
    | some e =>
      rw [hget] at h
      dsimp only at h
      by_cases hl : (if !s.m.visible then lit "******" else (totp e).1).length < 3
      · rw [if_pos hl] at h; exact absurd h (by simp)
      · rw [if_neg hl] at h
        simp only [Option.some.injEq, Prod.mk.injEq] at h
        refine ⟨e, List.take 3 (if !s.m.visible then lit "******" else (totp e).1) ++ lit " " ++
          List.drop 3 (if !s.m.visible then lit "******" else (totp e).1), rfl, ?_, ?_, ?_⟩
        · rw [← h.1]
        · rw [← h.1]
        · rw [← h.1]
  · rw [if_neg hb] at h; exact absurd h (by simp)

/-! ### The copy feedback -/

theorem updateList_g (s : session) (msg : Msg) : (updateList s msg).1.g = s.g := by
  cases msg <;> rfl

theorem copyInv_of_g_eq (s s1 : session) (h : CopyInv s)
    (h1 : s1.g.copied = s.g.copied) (h2 : s1.g.copiedVisibleMSecs = s.g.copiedVisibleMSecs) :
    CopyInv s1 := by
  obtain ⟨a, b, c⟩ := h
  constructor
  · rw [h2]; exact a
  · rw [h2]; exact b
  · rw [h1, h2]; exact c

theorem copyInv_updateDetail (clip : GoString) (s : session) (msg : Msg) (h : CopyInv s) :
    CopyInv (updateDetail clip s msg).1 := by
  obtain ⟨a, b, c⟩ := h
  cases msg with
  | tick =>
    simp only [updateDetail]
    split_ifs with h1 h2
    · exact ⟨by simp only; omega, by simp only; omega, fun hc => by simp_all⟩
    · exact ⟨by simp only; omega, by simp only; omega, fun _ => rfl⟩
    · exact ⟨a, b, c⟩
  | other => exact ⟨a, b, c⟩
  | key k =>
    cases hk : k.type <;> simp only [updateDetail, hk] <;> (try split_ifs) <;>
      first
        | exact ⟨a, b, c⟩
        | exact ⟨a, b, fun hc => absurd hc (by simp)⟩

theorem copyInv_Update (clip : GoString) (s : session) (msg : Msg) (h : CopyInv s) :
    CopyInv (Update clip s msg).1 := by
  by_cases hc : notCtrlC msg
  · by_cases hs : s.m.selected = -1
    · rw [Update_list clip s msg hs hc]
      exact copyInv_of_g_eq s _ h (by rw [updateList_g]) (by rw [updateList_g])
    · rw [Update_detail clip s msg hs hc]; exact copyInv_updateDetail clip s msg h
  · unfold notCtrlC at hc
    push_neg at hc
    obtain ⟨k, rfl, hk⟩ := hc
    rw [Update_ctrlC clip s k hk]
    exact h

/-- Rendering changes at most the stored code. -/
theorem step_view_eq (title : GoString) (totp : entry → GoString × Int) (now : Int)
    (s : session) :
    ∃ cur, step s (Step.view title totp now) = withCurrent cur s := by
  simp only [step]
  split
  · rename_i t s1 hv
    unfold View at hv
    split_ifs at hv
    · simp only [Option.some.injEq, Prod.mk.injEq] at hv
      exact ⟨s.g.current, hv.2.symm⟩
    · split at hv
      · exact absurd hv (by simp)
      · rename_i d s2 hd
        simp only [Option.some.injEq, Prod.mk.injEq] at hv
        obtain ⟨e, _, he⟩ := detail_session totp now s s2 d hd
        exact ⟨(totp e).1, by rw [← hv.2, he]; rfl⟩
  · exact ⟨s.g.current, rfl⟩

theorem copyInv_step (s : session) (st : Step) (h : CopyInv s) : CopyInv (step s st) := by
  cases st with
  | update clip msg => exact copyInv_Update clip s msg h
  | view title totp now =>
    obtain ⟨cur, hcur⟩ := step_view_eq title totp now s
    rw [hcur]
    exact copyInv_of_g_eq s _ h rfl rfl

theorem copyInv_run (s : session) (steps : List Step) (h : CopyInv s) :
    CopyInv (run s steps) := by
  induction steps generalizing s with
  | nil => exact h
  | cons st rest ih => exact ih (step s st) (copyInv_step s st h)

theorem copyInv_of_reachable (cc ok : Bool) (fn : GoString) (es : entries) (s : session)
    (h : Reachable (newModel (startGlobals cc) ok fn es) s) : CopyInv s := by
  obtain ⟨steps, rfl⟩ := h
  apply copyInv_run
  cases ok <;> exact ⟨show (0 : Int) ≤ 2000 by decide, show (2000 : Int) ≤ 2000 by decide, fun _ => rfl⟩

theorem tick_counting_down (clip : GoString) (s : session) (hsel : s.m.selected ≠ -1)
    (hc : s.g.copied = true) (hpos : 0 < s.g.copiedVisibleMSecs) :
    Update clip s Msg.tick = (withCopied true (s.g.copiedVisibleMSecs - 1) s, Cmd.tick) := by
  simp only [Update, updateDetail, withCopied, hsel, hc, hpos, ne_eq, not_false_eq_true, if_true,
    gt_iff_lt]

theorem tick_at_zero (clip : GoString) (s : session) (hsel : s.m.selected ≠ -1)
    (hc : s.g.copied = true) (hz : s.g.copiedVisibleMSecs ≤ 0) :
    Update clip s Msg.tick = (withCopied false 2000 s, Cmd.tick) := by
  have hn : ¬ s.g.copiedVisibleMSecs > 0 := by omega
  simp only [Update, updateDetail, withCopied, hsel, hc, hn, ne_eq, not_false_eq_true, if_true,
    if_false]

theorem withCopied_self (s : session) (hc : s.g.copied = true) :
    withCopied true s.g.copiedVisibleMSecs s = s := by
  obtain ⟨m, g⟩ := s
  obtain ⟨cur, cp, cd, cc⟩ := g
  simp only at hc
  simp only [withCopied, hc]

/-- In the detail view, with the copied flag set, as many ticks as the countdown allows
only count it down. -/
theorem run_ticks (clips : List GoString) (s : session) (hsel : s.m.selected ≠ -1)
    (hc : s.g.copied = true) (hn : (clips.length : Int) ≤ s.g.copiedVisibleMSecs) :
    run s (ticks clips) = withCopied true (s.g.copiedVisibleMSecs - clips.length) s := by
  induction clips generalizing s with
  | nil =>
    simp only [ticks, List.map_nil, run, List.foldl_nil, List.length_nil, Nat.cast_zero, sub_zero]
    exact (withCopied_self s hc).symm
  | cons c rest ih =>
    simp only [List.length_cons, Nat.cast_add, Nat.cast_one] at hn
    have hpos : 0 < s.g.copiedVisibleMSecs := by omega
    have h1 : run s (ticks (c :: rest)) =
        run (withCopied true (s.g.copiedVisibleMSecs - 1) s) (ticks rest) := by
      simp only [ticks, List.map_cons, run, List.foldl_cons, step,
        tick_counting_down c s hsel hc hpos]
    rw [h1, ih (withCopied true (s.g.copiedVisibleMSecs - 1) s) hsel rfl
      (by simp only [withCopied]; omega)]
    simp only [withCopied, List.length_cons, Nat.cast_add, Nat.cast_one]
    congr 2
    omega

theorem detail_of_view (s : session) (h : Inv s) (hv : s.m.view = VIEW_DETAIL) :
    s.m.selected ≠ -1 :=
  h.selected_iff.mpr hv

theorem lit_c_ne_q : lit "c" ≠ lit "q" := by decide

theorem lit_c_ne_ctrlC : lit "c" ≠ lit "ctrl+c" := by decide

/-- The key `c` in the detail view, written out. -/
theorem Update_copy_key (clip : GoString) (s : session) (k : KeyMsg) (hsel : s.m.selected ≠ -1)
    (hk : k.type = KeyType.KeyRunes) (hstr : k.str = lit "c") :
    Update clip s (Msg.key k) =
      if s.g.current ≠ [] ∧ s.g.copyCmd = true then
        if clip ≠ s.g.current then (s, Cmd.Quit)
        else (withCopied true s.g.copiedVisibleMSecs s, Cmd.none)
      else (s, Cmd.none) := by
  rw [Update_detail clip s _ hsel (notCtrlC_key k (by rw [hstr]; exact lit_c_ne_ctrlC))]
  simp only [updateDetail, hk, hstr, lit_c_ne_q, if_false, if_true, withCopied]

/-! ## The claims -/

/-- C1 at its failing input: with the entries `Café - a` and `Café - b`, after typing `é`, a
tick and Down the cursor is on the second of the two matches; Backspace then cuts the
query down to the single byte C3, which matches no entry, and after the next tick the
cursor is still 1 while `filtered` is empty, beyond `max(0, len(filtered) - 1) = 0`. -/
theorem cursor_beyond_filtered :
    (run cafeSession [typed "é", ticked, press keyDown]).m.cursor = 1 ∧
    (run cafeSession [typed "é", ticked, press keyDown]).m.filtered.length = 2 ∧
    (run cafeSession [typed "é", ticked, press keyDown, press keyBackspace]).m.query = [0xC3] ∧
    (run cafeSession [typed "é", ticked, press keyDown, press keyBackspace, ticked]).m.cursor
      = 1 ∧
    (run cafeSession [typed "é", ticked, press keyDown, press keyBackspace, ticked]).m.filtered
      = [] ∧
    ¬ (run cafeSession [typed "é", ticked, press keyDown, press keyBackspace, ticked]).m.cursor ≤
      max 0 (((run cafeSession [typed "é", ticked, press keyDown, press keyBackspace,
        ticked]).m.filtered.length : Int) - 1) := by
  decide

/-- C2: in every state reachable from the session that `newModel` builds, `selected` differs
from `-1` if and only if the view is `VIEW_DETAIL`. -/
theorem selected_iff_detail (g : globals) (ok : Bool) (fn : GoString) (es : entries)
    (steps : List Step) :
    (run (newModel g ok fn es) steps).m.selected ≠ -1 ↔
      (run (newModel g ok fn es) steps).m.view = VIEW_DETAIL :=
  (inv_session g ok fn es steps).selected_iff

/-- C3: from every state that the list handler serves (`selected = -1`, with a cursor that
is not negative) in which at least one entry matches the query, whatever the query, the
cursor and `filtered` are, pressing Enter and then Escape ends in the list view with an
empty query, `selected = -1`, the code hidden and `current` cleared, and neither key ends
the session.  `cur` is the code that a rendering between the two keys leaves in
`current`. -/
theorem enter_then_escape (clip1 clip2 cur : GoString) (s : session) (k1 k2 : KeyMsg)
    (hsel : s.m.selected = -1) (hcur : 0 ≤ s.m.cursor)
    (hmatch : s.m.items.filter s.m.query ≠ [])
    (hk1 : k1.type = KeyType.KeyEnter) (hc1 : k1.str ≠ lit "ctrl+c")
    (hk2 : k2.type = KeyType.KeyEsc) (hc2 : k2.str ≠ lit "ctrl+c") :
    (Update clip1 s (Msg.key k1)).2 = Cmd.none ∧
    (Update clip2 (withCurrent cur (Update clip1 s (Msg.key k1)).1) (Msg.key k2)).2 = Cmd.none ∧
    (Update clip2 (withCurrent cur (Update clip1 s (Msg.key k1)).1) (Msg.key k2)).1.m.view
      = VIEW_LIST ∧
    (Update clip2 (withCurrent cur (Update clip1 s (Msg.key k1)).1) (Msg.key k2)).1.m.query
      = [] ∧
    (Update clip2 (withCurrent cur (Update clip1 s (Msg.key k1)).1) (Msg.key k2)).1.m.selected
      = -1 ∧
    (Update clip2 (withCurrent cur (Update clip1 s (Msg.key k1)).1) (Msg.key k2)).1.m.visible
      = false ∧
    (Update clip2 (withCurrent cur (Update clip1 s (Msg.key k1)).1) (Msg.key k2)).1.g.current
      = [] := by
  have hlen : (s.m.items.filter s.m.query).length > 0 := List.length_pos.mpr hmatch
  have e1 : Update clip1 s (Msg.key k1) =
      ({ s with m := { s.m with filtered := s.m.items.filter s.m.query, selected := s.m.cursor,
                                view := VIEW_DETAIL } }, Cmd.none) := by
    rw [Update_list clip1 s _ hsel (notCtrlC_key k1 hc1)]
    simp only [updateList, updateListKey, hk1, hlen, if_true]
  have hsel2 : (withCurrent cur (Update clip1 s (Msg.key k1)).1).m.selected ≠ -1 := by
    rw [e1]
    simp only [withCurrent]
    omega
  rw [Update_detail clip2 _ _ hsel2 (notCtrlC_key k2 hc2)]
  rw [e1]
  simp only [updateDetail, hk2, withCurrent, and_self]

/-- C3, on the sample session: Enter, a rendering that shows the code 123456, Escape. -/
theorem enter_then_escape_witness :
    (sampleSession.m.selected = -1 ∧ 0 ≤ sampleSession.m.cursor ∧
      sampleSession.m.items.filter sampleSession.m.query ≠ [] ∧
      keyEnter.type = KeyType.KeyEnter ∧ keyEnter.str ≠ lit "ctrl+c" ∧
      keyEsc.type = KeyType.KeyEsc ∧ keyEsc.str ≠ lit "ctrl+c") ∧
    ((Update [] sampleSession (Msg.key keyEnter)).2 = Cmd.none ∧
    (Update [] (withCurrent (lit "123456") (Update [] sampleSession (Msg.key keyEnter)).1)
      (Msg.key keyEsc)).2 = Cmd.none ∧
    (Update [] (withCurrent (lit "123456") (Update [] sampleSession (Msg.key keyEnter)).1)
      (Msg.key keyEsc)).1.m.view = VIEW_LIST ∧
    (Update [] (withCurrent (lit "123456") (Update [] sampleSession (Msg.key keyEnter)).1)
      (Msg.key keyEsc)).1.m.query = [] ∧
    (Update [] (withCurrent (lit "123456") (Update [] sampleSession (Msg.key keyEnter)).1)
      (Msg.key keyEsc)).1.m.selected = -1 ∧
    (Update [] (withCurrent (lit "123456") (Update [] sampleSession (Msg.key keyEnter)).1)
      (Msg.key keyEsc)).1.m.visible = false ∧
    (Update [] (withCurrent (lit "123456") (Update [] sampleSession (Msg.key keyEnter)).1)
      (Msg.key keyEsc)).1.g.current = []) :=
  ⟨by decide,
    enter_then_escape [] [] (lit "123456") sampleSession keyEnter keyEsc (by decide) (by decide)
      (by decide) (by decide) (by decide) (by decide) (by decide)⟩

/-- C4: in every reachable state showing the list, Enter opens the detail view on the entry
under the cursor with the code hidden when at least one entry matches the query, and
changes neither view, selection, cursor, query nor visibility when none does; it never
ends the session. -/
theorem enter_in_list (g : globals) (ok : Bool) (fn : GoString) (es : entries) (s : session)
    (clip : GoString) (k : KeyMsg) (hr : Reachable (newModel g ok fn es) s)
    (hv : s.m.view = VIEW_LIST) (hk : k.type = KeyType.KeyEnter) (hc : k.str ≠ lit "ctrl+c") :
    (s.m.items.filter s.m.query ≠ [] →
      (Update clip s (Msg.key k)).1.m.view = VIEW_DETAIL ∧
      (Update clip s (Msg.key k)).1.m.selected = s.m.cursor ∧
      (Update clip s (Msg.key k)).1.m.visible = false) ∧
    (s.m.items.filter s.m.query = [] →
      (Update clip s (Msg.key k)).1.m.view = s.m.view ∧
      (Update clip s (Msg.key k)).1.m.selected = s.m.selected ∧
      (Update clip s (Msg.key k)).1.m.cursor = s.m.cursor ∧
      (Update clip s (Msg.key k)).1.m.query = s.m.query ∧
      (Update clip s (Msg.key k)).1.m.visible = s.m.visible) ∧
    (Update clip s (Msg.key k)).2 = Cmd.none := by
  have hinv := inv_of_reachable g ok fn es s hr
  have hsel := selected_of_list_view s hinv hv
  have hvis := hinv.hidden_in_list hsel
  rw [Update_list clip s _ hsel (notCtrlC_key k hc)]
  simp only [updateList, updateListKey, hk]
  refine ⟨?_, ?_, ?_⟩
  · intro hne
    rw [if_pos (List.length_pos.mpr hne)]
    exact ⟨rfl, rfl, hvis⟩
  · intro he
    simp only [he, List.length_nil, gt_iff_lt, lt_self_iff_false, if_false, and_self]
  · split_ifs <;> rfl

/-- C4, on the sample session, where both entries match the empty query. -/
theorem enter_in_list_witness :
    (Reachable (newModel sampleGlobals true (lit "otp.json") sampleEntries) sampleSession ∧
      sampleSession.m.view = VIEW_LIST ∧ keyEnter.type = KeyType.KeyEnter ∧
      keyEnter.str ≠ lit "ctrl+c") ∧
    ((sampleSession.m.items.filter sampleSession.m.query ≠ [] →
      (Update [] sampleSession (Msg.key keyEnter)).1.m.view = VIEW_DETAIL ∧
      (Update [] sampleSession (Msg.key keyEnter)).1.m.selected = sampleSession.m.cursor ∧
      (Update [] sampleSession (Msg.key keyEnter)).1.m.visible = false) ∧
    (sampleSession.m.items.filter sampleSession.m.query = [] →
      (Update [] sampleSession (Msg.key keyEnter)).1.m.view = sampleSession.m.view ∧
      (Update [] sampleSession (Msg.key keyEnter)).1.m.selected = sampleSession.m.selected ∧
      (Update [] sampleSession (Msg.key keyEnter)).1.m.cursor = sampleSession.m.cursor ∧
      (Update [] sampleSession (Msg.key keyEnter)).1.m.query = sampleSession.m.query ∧
      (Update [] sampleSession (Msg.key keyEnter)).1.m.visible = sampleSession.m.visible) ∧
    (Update [] sampleSession (Msg.key keyEnter)).2 = Cmd.none) :=
  ⟨⟨⟨[], rfl⟩, by decide, by decide, by decide⟩,
    enter_in_list sampleGlobals true (lit "otp.json") sampleEntries sampleSession [] keyEnter
      ⟨[], rfl⟩ (by decide) (by decide) (by decide)⟩

/-- C9 fails as stated: in the list state reached with the entries `Café - a` and `Café - b`
by typing `é`, a tick, Down and Backspace, the cursor is 1 and no entry matches the query,
so `last` is 0; Down then sets the cursor to 0, where `cursor + 1` would be 2 since the
cursor was not `last`. -/
theorem down_beyond_last :
    (run cafeSession [typed "é", ticked, press keyDown, press keyBackspace]).m.view = VIEW_LIST ∧
    (run cafeSession [typed "é", ticked, press keyDown, press keyBackspace]).m.cursor = 1 ∧
    lastIndex ((run cafeSession [typed "é", ticked, press keyDown, press keyBackspace]).m.items.filter
      (run cafeSession [typed "é", ticked, press keyDown, press keyBackspace]).m.query) = 0 ∧
    (Update [] (run cafeSession [typed "é", ticked, press keyDown, press keyBackspace])
      (Msg.key keyDown)).1.m.cursor = 0 ∧
    (Update [] (run cafeSession [typed "é", ticked, press keyDown, press keyBackspace])
      (Msg.key keyDown)).1.m.cursor ≠
        (run cafeSession [typed "é", ticked, press keyDown, press keyBackspace]).m.cursor + 1 := by
  decide

/-- C9, amended: in every state that the list handler serves, with `last` the last valid
index of the entries matching the query (`0` when none matches): Up moves the cursor to
`cursor - 1`, or to `last` when `cursor - 1` would be negative, which for a cursor that is
not negative means that it was `0`; Down moves it to `cursor + 1`, or to `0` when
`cursor + 1` would exceed `last`, which for a cursor within `last` means that it was
`last`; Page-up moves it to `0` and Page-down to `last`; and these four keys return no
command and change neither query, selection, view nor visibility. -/
theorem list_navigation (clip : GoString) (s : session) (k : KeyMsg) (hsel : s.m.selected = -1)
    (hc : k.str ≠ lit "ctrl+c") :
    (k.type = KeyType.KeyUp →
      (Update clip s (Msg.key k)).1.m.cursor =
        if s.m.cursor - 1 < 0 then lastIndex (s.m.items.filter s.m.query) else s.m.cursor - 1) ∧
    (k.type = KeyType.KeyDown →
      (Update clip s (Msg.key k)).1.m.cursor =
        if lastIndex (s.m.items.filter s.m.query) < s.m.cursor + 1 then 0 else s.m.cursor + 1) ∧
    (k.type = KeyType.KeyUp → 0 ≤ s.m.cursor →
      (Update clip s (Msg.key k)).1.m.cursor =
        if s.m.cursor = 0 then lastIndex (s.m.items.filter s.m.query) else s.m.cursor - 1) ∧
    (k.type = KeyType.KeyDown → s.m.cursor ≤ lastIndex (s.m.items.filter s.m.query) →
      (Update clip s (Msg.key k)).1.m.cursor =
        if s.m.cursor = lastIndex (s.m.items.filter s.m.query) then 0 else s.m.cursor + 1) ∧
    (k.type = KeyType.KeyPgUp → (Update clip s (Msg.key k)).1.m.cursor = 0) ∧
    (k.type = KeyType.KeyPgDown →
      (Update clip s (Msg.key k)).1.m.cursor = lastIndex (s.m.items.filter s.m.query)) ∧
    (k.type = KeyType.KeyUp ∨ k.type = KeyType.KeyDown ∨ k.type = KeyType.KeyPgUp ∨
        k.type = KeyType.KeyPgDown →
      (Update clip s (Msg.key k)).1.m.query = s.m.query ∧
      (Update clip s (Msg.key k)).1.m.selected = s.m.selected ∧
      (Update clip s (Msg.key k)).1.m.view = s.m.view ∧
      (Update clip s (Msg.key k)).1.m.visible = s.m.visible ∧
      (Update clip s (Msg.key k)).2 = Cmd.none) := by
  rw [Update_list clip s _ hsel (notCtrlC_key k hc)]
  unfold lastIndex
  refine ⟨?_, ?_, ?_, ?_, ?_, ?_, ?_⟩
  · intro hk
    simp only [updateList, updateListKey, hk]
    split_ifs <;> omega
  · intro hk
    simp only [updateList, updateListKey, hk]
    split_ifs <;> omega
  · intro hk h0
    simp only [updateList, updateListKey, hk]
    split_ifs <;> omega
  · intro hk hle
    simp only [updateList, updateListKey, hk]
    split_ifs <;> omega
  · intro hk
    simp only [updateList, updateListKey, hk]
  · intro hk
    simp only [updateList, updateListKey, hk]
    split_ifs <;> omega
  · rintro (hk | hk | hk | hk) <;> simp only [updateList, updateListKey, hk, and_self]

/-- C9, amended, on the sample session: Down from the first of the two entries. -/
theorem list_navigation_witness :
    (sampleSession.m.selected = -1 ∧ keyDown.str ≠ lit "ctrl+c" ∧
      keyDown.type = KeyType.KeyDown) ∧
    (Update [] sampleSession (Msg.key keyDown)).1.m.cursor = 1 :=
  ⟨by decide,
    ((list_navigation [] sampleSession keyDown (by decide) (by decide)).2.1 (by decide)).trans
      (by decide)⟩

/-- C10: whenever `detail` renders the detail view, with `until` the `int64` value the code
computes for `exp - now`, the remaining seconds of the code of the selected entry (the
difference itself whenever it fits in an `int64`), the code and the remaining-seconds text
are both styled `danger` iff `until ≤ 5`, both `warning` iff `5 < until ≤ 10`, and carry
their normal styles (`success` for the code, `white` for the seconds) iff `until > 10`. -/
theorem detail_urgency (totp : entry → GoString × Int) (now : Int) (s s1 : session)
    (d : DetailView) (h : detail totp now s = some (d, s1)) :
    (∃ e, s.m.filtered.get? s.m.selected.toNat = some e ∧
      d.untilSecs = wrapInt64 ((totp e).2 - now) ∧
      (-(2 ^ 63) ≤ (totp e).2 - now → (totp e).2 - now < 2 ^ 63 →
        d.untilSecs = (totp e).2 - now)) ∧
    (d.fmtToken.style = some Style.danger ↔ d.untilSecs ≤ 5) ∧
    (d.fmtUntil.style = some Style.danger ↔ d.untilSecs ≤ 5) ∧
    (d.fmtToken.style = some Style.warning ↔ 5 < d.untilSecs ∧ d.untilSecs ≤ 10) ∧
    (d.fmtUntil.style = some Style.warning ↔ 5 < d.untilSecs ∧ d.untilSecs ≤ 10) ∧
    (d.fmtToken.style = some Style.success ↔ 10 < d.untilSecs) ∧
    (d.fmtUntil.style = some Style.white ↔ 10 < d.untilSecs) := by
  obtain ⟨e, token, hget, hu, ht, hun⟩ := detail_view totp now s s1 d h
  refine ⟨⟨e, hget, hu, fun h1 h2 => hu.trans (wrapInt64_of_fits _ h1 h2)⟩, ?_⟩
  rw [ht, hun, hu]
  generalize wrapInt64 ((totp e).2 - now) = u
  by_cases h5 : u ≤ 5
  · rw [if_pos h5, if_pos h5]
    refine ⟨?_, ?_, ?_, ?_, ?_, ?_⟩ <;> simp <;> omega
  · rw [if_neg h5, if_neg h5]
    by_cases h10 : u ≤ 10 ∧ u > 5
    · rw [if_pos h10, if_pos h10]
      refine ⟨?_, ?_, ?_, ?_, ?_, ?_⟩ <;> simp <;> omega
    · rw [if_neg h10, if_neg h10]
      refine ⟨?_, ?_, ?_, ?_, ?_, ?_⟩ <;> simp <;> omega

set_option maxRecDepth 20000 in
/-- C10, on the sample session with the detail view open on its first entry, seven seconds
before the code expires: both texts are styled `warning`. -/
theorem detail_urgency_witness :
    detail sampleTotp 100 sampleDetail =
      some ({ name := lit "\nGitHub (alice)"
              fmtToken := ⟨some Style.warning, lit "*** ***"⟩
              mark := []
              untilSecs := 7
              fmtUntil := ⟨some Style.warning, lit "7s"⟩
              footer := [⟨some Style.muted,
                lit "\n[esc] back | [q] quit | [enter] toggle visibility | [c] copy\n"⟩] },
            withCurrent (lit "123456") sampleDetail) ∧
    ((5 : Int) < 7 ∧ (7 : Int) ≤ 10) :=
  ⟨by decide,
    (detail_urgency sampleTotp 100 sampleDetail (withCurrent (lit "123456") sampleDetail)
      { name := lit "\nGitHub (alice)"
        fmtToken := ⟨some Style.warning, lit "*** ***"⟩
        mark := []
        untilSecs := 7
        fmtUntil := ⟨some Style.warning, lit "7s"⟩
        footer := [⟨some Style.muted,
          lit "\n[esc] back | [q] quit | [enter] toggle visibility | [c] copy\n"⟩] }
      (by decide)).2.2.2.1.mp rfl⟩

/-- C5 fails as stated: `newModel` gives the entries of the scenario the display strings
`GitHub (alice)` and `AWS (AWS)`, not `AWS`, although the label `AWS` has no second
segment. -/
theorem choice_of_label_without_separator :
    (Split (lit "AWS") (lit " - ")).length = 1 ∧
    (newModel sampleGlobals true (lit "otp.json") sampleEntries).m.items.map (fun e => e.Choice)
      = [lit "GitHub (alice)", lit "AWS (AWS)"] ∧
    (newModel sampleGlobals true (lit "otp.json") sampleEntries).m.items.map (fun e => e.Choice)
      ≠ [lit "GitHub (alice)", lit "AWS"] := by
  decide

/-- C5, amended: `newModel` keeps every entry in place and sets its `Choice` to the issuer
alone when the account text is empty and to `issuer (account)` otherwise, where the
issuer is the explicit issuer without surrounding white space or, when that is empty, the
first segment of the label, and the account text is the second segment of the label when
there is one and the whole label otherwise. -/
theorem newModel_choice (g : globals) (ok : Bool) (fn : GoString) (es : entries) (i : Nat)
    (e : entry) (h : es[i]? = some e) :
    (newModel g ok fn es).m.items[i]? =
      some { e with
        Choice := if accountOf e = [] then issuerOf e
                  else issuerOf e ++ lit " (" ++ accountOf e ++ lit ")" } := by
  have hc : choice e = (if accountOf e = [] then issuerOf e
      else issuerOf e ++ lit " (" ++ accountOf e ++ lit ")") := by
    unfold choice issuerOf accountOf
    rcases hsp : Split e.Label (lit " - ") with _ | ⟨a, _ | ⟨b, r⟩⟩ <;>
      simp only [List.headD_nil, List.headD_cons, List.length_nil, List.length_cons,
        List.getD_cons_succ, List.getD_cons_zero] <;>
      split_ifs <;> first | rfl | omega | contradiction
  simp only [newModel, List.getElem?_map, h, Option.map_some', hc]

/-- C5, amended, on the second entry of the scenario. -/
theorem newModel_choice_witness :
    sampleEntries[1]? = some ⟨lit "AWS", [], [], []⟩ ∧
    (newModel sampleGlobals true (lit "otp.json") sampleEntries).m.items[1]? =
      some ⟨lit "AWS", [], [], lit "AWS (AWS)"⟩ :=
  ⟨by decide,
    (newModel_choice sampleGlobals true (lit "otp.json") sampleEntries 1 ⟨lit "AWS", [], [], []⟩
      (by decide)).trans (by decide)⟩

/-- C6 at its failing input: after typing `x` in the initial list, the query is `x` and no
entry matches it, yet `filtered` holds both entries (those matching the old query). -/
theorem filtered_after_typing :
    (Update [] sampleSession (runes "x")).1.m.query = lit "x" ∧
    (Update [] sampleSession (runes "x")).1.m.items.filter (lit "x") = [] ∧
    (Update [] sampleSession (runes "x")).1.m.filtered.map (fun e => e.Choice)
      = [lit "GitHub (alice)", lit "AWS (AWS)"] := by
  decide

/-- C7 at its failing input: typing `git`, Enter, Escape leaves the list view with an empty
query but with `filtered` still holding the single entry matched before, not the two
entries of `items`. -/
theorem filtered_after_escape_from_detail :
    (run sampleSession [typed "g", typed "i", typed "t", press keyEnter]).m.view = VIEW_DETAIL ∧
    (run sampleSession [typed "g", typed "i", typed "t", press keyEnter, press keyEsc]).m.view
      = VIEW_LIST ∧
    (run sampleSession [typed "g", typed "i", typed "t", press keyEnter, press keyEsc]).m.query
      = [] ∧
    (run sampleSession [typed "g", typed "i", typed "t", press keyEnter,
      press keyEsc]).m.filtered.map (fun e => e.Choice) = [lit "GitHub (alice)"] ∧
    (run sampleSession [typed "g", typed "i", typed "t", press keyEnter,
      press keyEsc]).m.items.map (fun e => e.Choice) = [lit "GitHub (alice)", lit "AWS (AWS)"] := by
  decide

/-- C8 at its failing input: in the list state reached by typing `x`, a tick and Backspace
(`filtered` empty, query empty), typing `a` makes `filtered` grow from no entry to two; so
does the first key typed in the initial state. -/
theorem filtered_grows_on_typing :
    (run sampleSession [typed "x", ticked, press keyBackspace]).m.view = VIEW_LIST ∧
    (run sampleSession [typed "x", ticked, press keyBackspace]).m.filtered.length = 0 ∧
    (run sampleSession [typed "x", ticked, press keyBackspace, typed "a"]).m.filtered.length = 2 ∧
    sampleSession.m.filtered.length = 0 ∧
    (run sampleSession [typed "x"]).m.filtered.length = 2 := by
  decide

/-- C11 fails as stated: after a successful copy, the 2000th tick brings the countdown to
zero and leaves the copied flag set, and the tick after it, which arrives with the flag
set, does not decrement the countdown but clears the flag and resets it to 2000. -/
theorem tick_with_countdown_at_zero :
    (run sampleCopied (ticks (List.replicate 1999 []))).g.copiedVisibleMSecs = 1 ∧
    (run sampleCopied (ticks (List.replicate 2000 []))).g.copiedVisibleMSecs = 0 ∧
    (run sampleCopied (ticks (List.replicate 2000 []))).g.copied = true ∧
    (run sampleCopied (ticks (List.replicate 2000 []))).m.selected ≠ -1 ∧
    (Update [] (run sampleCopied (ticks (List.replicate 2000 []))) Msg.tick).1.g.copied
      = false ∧
    (Update [] (run sampleCopied (ticks (List.replicate 2000 []))) Msg.tick).1.g.copiedVisibleMSecs
      = 2000 := by
  have hsel : sampleCopied.m.selected ≠ -1 := by decide
  have hc : sampleCopied.g.copied = true := by decide
  have hcd : sampleCopied.g.copiedVisibleMSecs = 2000 := by decide
  have h1 := run_ticks (List.replicate 1999 []) sampleCopied hsel hc
    (by rw [hcd, List.length_replicate]; decide)
  have h2 := run_ticks (List.replicate 2000 []) sampleCopied hsel hc
    (by rw [hcd, List.length_replicate]; decide)
  rw [List.length_replicate, hcd] at h1 h2
  rw [h1, h2]
  have hz : (withCopied true ((2000 : Int) - (2000 : Nat)) sampleCopied).g.copiedVisibleMSecs ≤ 0 := by
    simp only [withCopied]; decide
  rw [tick_at_zero [] (withCopied true ((2000 : Int) - (2000 : Nat)) sampleCopied) hsel rfl hz]
  refine ⟨?_, ?_, rfl, hsel, rfl, rfl⟩ <;> simp only [withCopied] <;> decide

/-- C11, amended: in the detail view a tick returns the next tick and never changes the
model (query, filtered, cursor, selected, view, visible), the stored code or the copy
switch; with the copied flag set and the countdown above zero it lowers the countdown by
one and leaves the flag set; with the flag set and the countdown at zero (or below) it
clears the flag and resets the countdown to 2000; with the flag unset it changes neither
the flag nor the countdown. -/
theorem tick_in_detail (clip : GoString) (s : session) (hsel : s.m.selected ≠ -1) :
    (Update clip s Msg.tick).2 = Cmd.tick ∧
    (Update clip s Msg.tick).1.m = s.m ∧
    (Update clip s Msg.tick).1.g.current = s.g.current ∧
    (Update clip s Msg.tick).1.g.copyCmd = s.g.copyCmd ∧
    (s.g.copied = true → 0 < s.g.copiedVisibleMSecs →
      (Update clip s Msg.tick).1.g.copied = true ∧
      (Update clip s Msg.tick).1.g.copiedVisibleMSecs = s.g.copiedVisibleMSecs - 1) ∧
    (s.g.copied = true → s.g.copiedVisibleMSecs ≤ 0 →
      (Update clip s Msg.tick).1.g.copied = false ∧
      (Update clip s Msg.tick).1.g.copiedVisibleMSecs = 2000) ∧
    (s.g.copied = false →
      (Update clip s Msg.tick).1.g.copied = false ∧
      (Update clip s Msg.tick).1.g.copiedVisibleMSecs = s.g.copiedVisibleMSecs) := by
  by_cases hc : s.g.copied = true
  · by_cases hpos : 0 < s.g.copiedVisibleMSecs
    · rw [tick_counting_down clip s hsel hc hpos]
      refine ⟨rfl, rfl, rfl, rfl, fun _ _ => ⟨rfl, rfl⟩, fun _ hz => ?_, fun hf => ?_⟩
      · omega
      · rw [hc] at hf; cases hf
    · rw [tick_at_zero clip s hsel hc (by omega)]
      refine ⟨rfl, rfl, rfl, rfl, fun _ hp => absurd hp hpos, fun _ _ => ⟨rfl, rfl⟩, fun hf => ?_⟩
      rw [hc] at hf; cases hf
  · have hf : s.g.copied = false := by simpa using hc
    rw [Update_detail clip s Msg.tick hsel (fun k hk => by cases hk)]
    simp only [updateDetail, hf, Bool.false_eq_true, if_false, true_and, and_self, imp_self,
      false_implies, implies_true]

/-- C11, amended, on the sample session right after a successful copy: the tick lowers the
countdown from 2000 to 1999. -/
theorem tick_in_detail_witness :
    sampleCopied.m.selected ≠ -1 ∧
    (Update [] sampleCopied Msg.tick).1.g.copied = true ∧
    (Update [] sampleCopied Msg.tick).1.g.copiedVisibleMSecs = 1999 :=
  ⟨by decide,
    ((tick_in_detail [] sampleCopied (by decide)).2.2.2.2.1 (by decide) (by decide)).1,
    ((tick_in_detail [] sampleCopied (by decide)).2.2.2.2.1 (by decide) (by decide)).2.trans
      (by decide)⟩

/-- C12 fails as stated: when the key `c` is pressed again one tick after a successful copy,
the copy succeeds and the flag is set, but the countdown stays at 1999 instead of being at
its initial value 2000. -/
theorem copy_while_feedback_shows :
    (run sampleSession [press keyEnter, rendered, copyKey "123456", ticked]).m.view
      = VIEW_DETAIL ∧
    (run sampleSession [press keyEnter, rendered, copyKey "123456", ticked]).g.copyCmd = true ∧
    (run sampleSession [press keyEnter, rendered, copyKey "123456", ticked]).g.current
      = lit "123456" ∧
    (run sampleSession [press keyEnter, rendered, copyKey "123456", ticked,
      copyKey "123456"]).g.copied = true ∧
    (run sampleSession [press keyEnter, rendered, copyKey "123456", ticked,
      copyKey "123456"]).g.copiedVisibleMSecs = 1999 := by
  decide

/-- C12, amended: in every reachable state showing the detail view with the copy feature
enabled and a code stored in `current`, the key `c` with a clipboard that gives back the
bytes written returns no command, sets the copied flag and leaves the countdown as it is:
a value between 0 and 2000, which is the initial 2000 whenever the flag was unset before
the key.  From there every tick handled in the detail view lowers the countdown by one
with the flag still set, as long as the countdown is above zero, and the tick after the
one that brings it to zero clears the flag and resets the countdown to 2000. -/
theorem copy_key_success (cc ok : Bool) (fn : GoString) (es : entries) (s : session)
    (k : KeyMsg) (hr : Reachable (newModel (startGlobals cc) ok fn es) s)
    (hv : s.m.view = VIEW_DETAIL) (hcopy : s.g.copyCmd = true) (hcur : s.g.current ≠ [])
    (hk : k.type = KeyType.KeyRunes) (hstr : k.str = lit "c") :
    Update s.g.current s (Msg.key k) = (withCopied true s.g.copiedVisibleMSecs s, Cmd.none) ∧
    0 ≤ s.g.copiedVisibleMSecs ∧ s.g.copiedVisibleMSecs ≤ 2000 ∧
    (s.g.copied = false → s.g.copiedVisibleMSecs = 2000) ∧
    (∀ clips : List GoString, (clips.length : Int) ≤ s.g.copiedVisibleMSecs →
      run (withCopied true s.g.copiedVisibleMSecs s) (ticks clips) =
        withCopied true (s.g.copiedVisibleMSecs - clips.length) s) ∧
    (∀ (clips : List GoString) (clip : GoString), (clips.length : Int) = s.g.copiedVisibleMSecs →
      run (withCopied true s.g.copiedVisibleMSecs s) (ticks (clips ++ [clip])) =
        withCopied false 2000 s) := by
  have hinv := inv_of_reachable (startGlobals cc) ok fn es s hr
  have hci := copyInv_of_reachable cc ok fn es s hr
  have hsel := detail_of_view s hinv hv
  have hcount : ∀ clips : List GoString, (clips.length : Int) ≤ s.g.copiedVisibleMSecs →
      run (withCopied true s.g.copiedVisibleMSecs s) (ticks clips) =
        withCopied true (s.g.copiedVisibleMSecs - clips.length) s := by
    intro clips hn
    exact run_ticks clips (withCopied true s.g.copiedVisibleMSecs s) hsel rfl hn
  refine ⟨?_, hci.countdown_nonneg, hci.countdown_le, hci.countdown_idle, hcount, ?_⟩
  · rw [Update_copy_key s.g.current s k hsel hk hstr]
    simp only [hcur, hcopy, ne_eq, not_false_eq_true, and_self, if_true, not_true_eq_false,
      if_false]
  · intro clips clip hn
    have happ : run (withCopied true s.g.copiedVisibleMSecs s) (ticks (clips ++ [clip])) =
        (Update clip (run (withCopied true s.g.copiedVisibleMSecs s) (ticks clips)) Msg.tick).1 := by
      simp only [ticks, run, List.map_append, List.foldl_append, List.map_cons, List.map_nil,
        List.foldl_cons, List.foldl_nil, step]
    rw [happ, hcount clips (le_of_eq hn), hn, sub_self,
      tick_at_zero clip (withCopied true 0 s) hsel rfl (le_refl _)]
    rfl

/-- C12, amended, on the sample session after Enter and a rendering that stores the code
123456: the key `c` sets the flag with the countdown at 2000. -/
theorem copy_key_success_witness :
    (Reachable (newModel (startGlobals true) true (lit "otp.json") sampleEntries)
        (run sampleSession [press keyEnter, rendered]) ∧
      (run sampleSession [press keyEnter, rendered]).m.view = VIEW_DETAIL ∧
      (run sampleSession [press keyEnter, rendered]).g.copyCmd = true ∧
      (run sampleSession [press keyEnter, rendered]).g.current ≠ [] ∧
      (⟨KeyType.KeyRunes, lit "c"⟩ : KeyMsg).type = KeyType.KeyRunes ∧
      (⟨KeyType.KeyRunes, lit "c"⟩ : KeyMsg).str = lit "c") ∧
    Update (run sampleSession [press keyEnter, rendered]).g.current
        (run sampleSession [press keyEnter, rendered]) (Msg.key ⟨KeyType.KeyRunes, lit "c"⟩) =
      (withCopied true 2000 (run sampleSession [press keyEnter, rendered]), Cmd.none) :=
  ⟨⟨⟨[press keyEnter, rendered], rfl⟩, by decide, by decide, by decide, rfl, rfl⟩,
    (copy_key_success true true (lit "otp.json") sampleEntries
      (run sampleSession [press keyEnter, rendered]) ⟨KeyType.KeyRunes, lit "c"⟩
      ⟨[press keyEnter, rendered], rfl⟩ (by decide) (by decide) (by decide) rfl rfl).1.trans
      (by decide)⟩

/-- C13: in the detail view the key `c` ends the session if and only if the copy feature
is enabled, the stored code is not empty and the clipboard gives back other bytes than
those written; on that path nothing of the state changes, so the copied flag is not set by
the key; and with the copy feature disabled or no code stored the key changes nothing and
returns no command. -/
theorem copy_key_quits (clip : GoString) (s : session) (k : KeyMsg) (hsel : s.m.selected ≠ -1)
    (hk : k.type = KeyType.KeyRunes) (hstr : k.str = lit "c") :
    ((Update clip s (Msg.key k)).2 = Cmd.Quit ↔
      s.g.copyCmd = true ∧ s.g.current ≠ [] ∧ clip ≠ s.g.current) ∧
    ((Update clip s (Msg.key k)).2 = Cmd.Quit →
      (Update clip s (Msg.key k)).1 = s ∧
      (Update clip s (Msg.key k)).1.g.copied = s.g.copied) ∧
    (s.g.copyCmd = false ∨ s.g.current = [] → Update clip s (Msg.key k) = (s, Cmd.none)) := by
  rw [Update_copy_key clip s k hsel hk hstr]
  by_cases h1 : s.g.current ≠ [] ∧ s.g.copyCmd = true
  · rw [if_pos h1]
    by_cases h2 : clip ≠ s.g.current
    · rw [if_pos h2]
      refine ⟨⟨fun _ => ⟨h1.2, h1.1, h2⟩, fun _ => rfl⟩, fun _ => ⟨rfl, rfl⟩, ?_⟩
      rintro (hc | hc)
      · rw [h1.2] at hc; cases hc
      · exact absurd hc h1.1
    · rw [if_neg h2]
      refine ⟨⟨fun hq => (by cases hq), fun hq => absurd hq.2.2 h2⟩, fun hq => (by cases hq), ?_⟩
      rintro (hc | hc)
      · rw [h1.2] at hc; cases hc
      · exact absurd hc h1.1
  · rw [if_neg h1]
    exact ⟨⟨fun hq => (by cases hq), fun hq => absurd ⟨hq.2.1, hq.1⟩ h1⟩,
      fun hq => (by cases hq), fun _ => rfl⟩

/-- C13, on the sample session with the detail view open and the code 123456 stored: a
clipboard that gives back 000000 ends the session and leaves the copied flag unset. -/
theorem copy_key_quits_witness :
    ((run sampleSession [press keyEnter, rendered]).m.selected ≠ -1 ∧
      (⟨KeyType.KeyRunes, lit "c"⟩ : KeyMsg).type = KeyType.KeyRunes ∧
      (⟨KeyType.KeyRunes, lit "c"⟩ : KeyMsg).str = lit "c") ∧
    (Update (lit "000000") (run sampleSession [press keyEnter, rendered])
      (Msg.key ⟨KeyType.KeyRunes, lit "c"⟩)).2 = Cmd.Quit ∧
    (Update (lit "000000") (run sampleSession [press keyEnter, rendered])
      (Msg.key ⟨KeyType.KeyRunes, lit "c"⟩)).1.g.copied = false :=
  ⟨⟨by decide, rfl, rfl⟩,
    (copy_key_quits (lit "000000") (run sampleSession [press keyEnter, rendered])
      ⟨KeyType.KeyRunes, lit "c"⟩ (by decide) rfl rfl).1.mpr (by decide),
    (((copy_key_quits (lit "000000") (run sampleSession [press keyEnter, rendered])
      ⟨KeyType.KeyRunes, lit "c"⟩ (by decide) rfl rfl).2.1 (by decide)).2).trans (by decide)⟩

/-- C14 fails as stated: the first tick handled in the initial list state changes
`filtered` from no entry to the two entries of the session. -/
theorem tick_in_list_fills_filtered :
    sampleSession.m.view = VIEW_LIST ∧
    sampleSession.m.filtered.length = 0 ∧
    (Update [] sampleSession Msg.tick).1.m.filtered.length = 2 := by
  decide

/-- C14, amended: in every state that the list handler serves, a tick returns the next tick
and changes no field of the session other than `filtered`, which becomes the list of the
entries matching the query; it changes nothing at all when `filtered` already is that
list. -/
theorem tick_in_list (clip : GoString) (s : session) (hsel : s.m.selected = -1) :
    Update clip s Msg.tick =
      ({ s with m := { s.m with filtered := s.m.items.filter s.m.query } }, Cmd.tick) ∧
    (s.m.filtered = s.m.items.filter s.m.query → (Update clip s Msg.tick).1 = s) := by
  rw [Update_list clip s Msg.tick hsel (fun k hk => by cases hk)]
  refine ⟨rfl, fun hf => ?_⟩
  simp only [updateList, ← hf]

/-- C14, amended, on the initial sample session. -/
theorem tick_in_list_witness :
    sampleSession.m.selected = -1 ∧
    (Update [] sampleSession Msg.tick).2 = Cmd.tick ∧
    (Update [] sampleSession Msg.tick).1.m.query = sampleSession.m.query ∧
    (Update [] sampleSession Msg.tick).1.m.cursor = sampleSession.m.cursor ∧
    (Update [] sampleSession Msg.tick).1.g = sampleSession.g :=
  ⟨by decide,
    congrArg Prod.snd (tick_in_list [] sampleSession (by decide)).1,
    congrArg (fun r => r.1.m.query) (tick_in_list [] sampleSession (by decide)).1,
    congrArg (fun r => r.1.m.cursor) (tick_in_list [] sampleSession (by decide)).1,
    congrArg (fun r => r.1.g) (tick_in_list [] sampleSession (by decide)).1⟩

/-- C15 fails as stated: rendering the detail view of the sample session stores the code
123456 in `current`, which was empty before. -/
theorem view_stores_code :
    sampleDetail.g.current = [] ∧
    (View sampleTitle sampleTotp 100 sampleDetail).map (fun r => r.2.g.current)
      = some (lit "123456") := by
  decide

/-- C15, amended: whenever `View` renders a state, it leaves the model, the copied flag,
its countdown and the copy switch unchanged; in the list view it leaves the whole state
unchanged, and in the detail view it stores the code generated for the selected entry in
`current`. -/
theorem View_frame (title : GoString) (totp : entry → GoString × Int) (now : Int)
    (s s1 : session) (t : Text) (h : View title totp now s = some (t, s1)) :
    s1.m = s.m ∧ s1.g.copied = s.g.copied ∧
    s1.g.copiedVisibleMSecs = s.g.copiedVisibleMSecs ∧ s1.g.copyCmd = s.g.copyCmd ∧
    (s.m.view = VIEW_LIST → s1 = s) ∧
    (s.m.view ≠ VIEW_LIST →
      ∃ e, s.m.filtered.get? s.m.selected.toNat = some e ∧ s1 = withCurrent (totp e).1 s) := by
  unfold View at h
  by_cases hv : s.m.view = VIEW_LIST
  · rw [if_pos hv] at h
    simp only [Option.some.injEq, Prod.mk.injEq] at h
    rw [← h.2]
    exact ⟨rfl, rfl, rfl, rfl, fun _ => rfl, fun hn => absurd hv hn⟩
  · rw [if_neg hv] at h
    split at h
    · exact absurd h (by simp)
    · rename_i d s2 hd
      simp only [Option.some.injEq, Prod.mk.injEq] at h
      obtain ⟨e, hget, he⟩ := detail_session totp now s s2 d hd
      rw [← h.2, he]
      exact ⟨rfl, rfl, rfl, rfl, fun hl => absurd hl hv, fun _ => ⟨e, hget, rfl⟩⟩

set_option maxRecDepth 20000 in
/-- C15, amended, on the sample session with the detail view open. -/
theorem View_frame_witness :
    (View sampleTitle sampleTotp 100 sampleDetail).map (fun r => r.2)
      = some (withCurrent (lit "123456") sampleDetail) ∧
    (withCurrent (lit "123456") sampleDetail).g.copied = sampleDetail.g.copied :=
  ⟨by decide,
    (View_frame sampleTitle sampleTotp 100 sampleDetail (withCurrent (lit "123456") sampleDetail)
      (header sampleDetail sampleTitle ++
        DetailView.text
          { name := lit "\nGitHub (alice)"
            fmtToken := ⟨some Style.warning, lit "*** ***"⟩
            mark := []
            untilSecs := 7
            fmtUntil := ⟨some Style.warning, lit "7s"⟩
            footer := [⟨some Style.muted,
              lit "\n[esc] back | [q] quit | [enter] toggle visibility | [c] copy\n"⟩] })
      (by decide)).2.1⟩

/-- C16 at its failing input: after typing `é`, whose encoding has two bytes, Backspace
leaves the first of the two bytes in the query instead of the empty query. -/
theorem backspace_on_two_byte_character :
    (run sampleSession [typed "é"]).m.query = [0xC3, 0xA9] ∧
    (run sampleSession [typed "é"]).m.selected = -1 ∧
    (run sampleSession [typed "é", press keyBackspace]).m.query = [0xC3] ∧
    (run sampleSession [typed "é", press keyBackspace]).m.query ≠ [] := by
  decide

/-- C17: in every state that the list handler serves, Escape with a query that is not
empty returns no command and empties the query, leaving cursor, selection, view and
visibility as they are; Escape with an empty query returns `tea.Quit`. -/
theorem escape_in_list (clip : GoString) (s : session) (k : KeyMsg) (hsel : s.m.selected = -1)
    (hk : k.type = KeyType.KeyEsc) (hc : k.str ≠ lit "ctrl+c") :
    (s.m.query ≠ [] →
      (Update clip s (Msg.key k)).2 = Cmd.none ∧
      (Update clip s (Msg.key k)).1.m.query = [] ∧
      (Update clip s (Msg.key k)).1.m.cursor = s.m.cursor ∧
      (Update clip s (Msg.key k)).1.m.selected = s.m.selected ∧
      (Update clip s (Msg.key k)).1.m.view = s.m.view ∧
      (Update clip s (Msg.key k)).1.m.visible = s.m.visible) ∧
    (s.m.query = [] → (Update clip s (Msg.key k)).2 = Cmd.Quit) := by
  rw [Update_list clip s _ hsel (notCtrlC_key k hc)]
  constructor
  · intro hq
    simp only [updateList, updateListKey, hk, hq, if_false, and_self]
  · intro hq
    simp only [updateList, updateListKey, hk, hq, if_true]

/-- C17, on the sample session: after typing `x`, Escape empties the query without ending
the session; in the initial state, with an empty query, it ends the session. -/
theorem escape_in_list_witness :
    ((run sampleSession [typed "x"]).m.selected = -1 ∧ keyEsc.type = KeyType.KeyEsc ∧
      keyEsc.str ≠ lit "ctrl+c" ∧ (run sampleSession [typed "x"]).m.query ≠ []) ∧
    (Update [] (run sampleSession [typed "x"]) (Msg.key keyEsc)).2 = Cmd.none ∧
    (Update [] (run sampleSession [typed "x"]) (Msg.key keyEsc)).1.m.query = [] ∧
    (Update [] sampleSession (Msg.key keyEsc)).2 = Cmd.Quit :=
  ⟨by decide,
    ((escape_in_list [] (run sampleSession [typed "x"]) keyEsc (by decide) (by decide)
      (by decide)).1 (by decide)).1,
    ((escape_in_list [] (run sampleSession [typed "x"]) keyEsc (by decide) (by decide)
      (by decide)).1 (by decide)).2.1,
    by decide⟩

/-- C18: in every state, list or detail, a key message whose `String()` is `ctrl+c` makes
`Update` return `tea.Quit` with the whole session state unchanged, whatever the type of
the key. -/
theorem ctrl_c_quits (clip : GoString) (s : session) (t : KeyType) :
    Update clip s (Msg.key ⟨t, lit "ctrl+c"⟩) = (s, Cmd.Quit) :=
  Update_ctrlC clip s ⟨t, lit "ctrl+c"⟩ rfl

/-- C19: in every state that the detail handler serves, Enter returns no command and
changes nothing but `visible`, which it flips, so that a second Enter gives the original
state back; and a key that is neither Escape, Enter, `q`, `c` nor ctrl+c returns no
command and leaves the state unchanged. -/
theorem enter_and_other_keys_in_detail (clip clip2 : GoString) (s : session) (k : KeyMsg)
    (hsel : s.m.selected ≠ -1) (hc : k.str ≠ lit "ctrl+c") :
    (k.type = KeyType.KeyEnter →
      Update clip s (Msg.key k) =
        ({ s with m := { s.m with visible := !s.m.visible } }, Cmd.none) ∧
      Update clip2 (Update clip s (Msg.key k)).1 (Msg.key k) = (s, Cmd.none)) ∧
    (k.type ≠ KeyType.KeyEsc → k.type ≠ KeyType.KeyEnter →
      ¬ (k.type = KeyType.KeyRunes ∧ (k.str = lit "q" ∨ k.str = lit "c")) →
      Update clip s (Msg.key k) = (s, Cmd.none)) := by
  constructor
  · intro hk
    have h1 : Update clip s (Msg.key k) =
        ({ s with m := { s.m with visible := !s.m.visible } }, Cmd.none) := by
      rw [Update_detail clip s _ hsel (notCtrlC_key k hc)]
      simp only [updateDetail, hk]
    refine ⟨h1, ?_⟩
    rw [h1, Update_detail clip2 ({ s with m := { s.m with visible := !s.m.visible } }, Cmd.none).1
      _ hsel (notCtrlC_key k hc)]
    simp only [updateDetail, hk, Bool.not_not]
  · intro hesc hent hqc
    rw [Update_detail clip s _ hsel (notCtrlC_key k hc)]
    cases hk : k.type
    case KeyEsc => exact absurd hk hesc
    case KeyEnter => exact absurd hk hent
    case KeyRunes =>
      have hq : k.str ≠ lit "q" := fun h => hqc ⟨hk, Or.inl h⟩
      have hcc : k.str ≠ lit "c" := fun h => hqc ⟨hk, Or.inr h⟩
      simp only [updateDetail, hk, hq, hcc, if_false]
    all_goals simp only [updateDetail, hk]

/-- C19, on the sample session with the detail view open: Enter shows the code. -/
theorem enter_and_other_keys_in_detail_witness :
    (sampleDetail.m.selected ≠ -1 ∧ keyEnter.str ≠ lit "ctrl+c" ∧
      keyEnter.type = KeyType.KeyEnter) ∧
    (Update [] sampleDetail (Msg.key keyEnter)).1.m.visible = true ∧
    Update [] (Update [] sampleDetail (Msg.key keyEnter)).1 (Msg.key keyEnter)
      = (sampleDetail, Cmd.none) :=
  ⟨by decide,
    (congrArg (fun r => r.1.m.visible)
      ((enter_and_other_keys_in_detail [] [] sampleDetail keyEnter (by decide) (by decide)).1
        (by decide)).1).trans (by decide),
    ((enter_and_other_keys_in_detail [] [] sampleDetail keyEnter (by decide) (by decide)).1
      (by decide)).2⟩

/-- C20 at its failing input: with the entries `xé - 1`, `xé - 2` and `x\uFFFD - 3`, after
typing `x` and `é`, a tick and Down the cursor is 1; Backspace cuts the query down to `x`
followed by the byte C3, which only the third entry matches, and Enter then opens the
detail view with `selected = 1` while `filtered` has a single entry: `View` panics on
`m.filtered[m.selected]`. -/
theorem selected_beyond_filtered :
    (run accentSession [typed "x", typed "é", ticked, press keyDown,
      press keyBackspace]).m.query = [0x78, 0xC3] ∧
    (run accentSession [typed "x", typed "é", ticked, press keyDown, press keyBackspace,
      press keyEnter]).m.view = VIEW_DETAIL ∧
    (run accentSession [typed "x", typed "é", ticked, press keyDown, press keyBackspace,
      press keyEnter]).m.selected = 1 ∧
    (run accentSession [typed "x", typed "é", ticked, press keyDown, press keyBackspace,
      press keyEnter]).m.filtered.length = 1 ∧
    View sampleTitle sampleTotp 100 (run accentSession [typed "x", typed "é", ticked,
      press keyDown, press keyBackspace, press keyEnter]) = none := by
  decide

end Andcli
